import Mathlib

/-!
Verification model of the provider-adaptation layer of the omni-cli
repository: the vendor stream parsers (`parseOpenAIStream`,
`parseAnthropicStream`), the single-shot response converters, the
canonical-to-vendor message translators, the finish-reason maps, the
provider router's capability gate and the Ollama provider constructor.

Each definition is a shallow embedding of the corresponding TypeScript
function; comments on the definitions cite the source file and the
behaviour being modelled.  JavaScript strings are modelled by `String` /
`List Char`, bytes by `Nat`, `JSON.parse` by an executable JSON parser
(`Json.parse`), `TextDecoder` by an executable incremental UTF-8 decoder,
and thrown-vs-returned behaviour by `Option` / `Except`.
-/

set_option maxRecDepth 20000

/-! ## JavaScript string helpers -/

/-- Whitespace recognised by the model for `String.prototype.trim` and for
JSON whitespace (space, tab, newline, carriage return).  JavaScript's
`trim` strips a few additional exotic code points; none of the sources'
behaviour modelled here depends on them. -/
def isWsChar (c : Char) : Bool :=
  c = ' ' || c = '\t' || c = '\n' || c = '\r'

/-- Model of `String.prototype.trim` on a list of characters. -/
def trimChars (cs : List Char) : List Char :=
  ((cs.dropWhile isWsChar).reverse.dropWhile isWsChar).reverse

/-- The characters of the SSE line marker `"data: "`. -/
def dataMarker : List Char := 'd' :: 'a' :: 't' :: 'a' :: ':' :: ' ' :: []

/-- The characters of the OpenAI terminal sentinel `"[DONE]"`. -/
def doneMarker : List Char := '[' :: 'D' :: 'O' :: 'N' :: 'E' :: ']' :: []

/-- JavaScript truthiness of an optional string (`undefined` and `""` are
falsy). -/
def jsTruthyOS : Option String → Bool
  | some s => s ≠ ""
  | none => false

/-- Model of `x || d` for an optional string `x` and default `d`. -/
def jsOrOS (o : Option String) (d : String) : String :=
  match o with
  | some s => if s = "" then d else s
  | none => d

/-- Concatenation of a list of strings (used to state accumulated
tool-call argument buffers). -/
def strJoin : List String → String
  | [] => ""
  | s :: rest => s ++ strJoin rest

/-! ## Line buffering

Both stream parsers do `buffer += text; lines = buffer.split('\n');
buffer = lines.pop() || ''` and then process the complete lines.
`splitLines` returns exactly that pair: the complete lines and the
retained trailing (possibly incomplete) segment. -/

/-- One character of the line splitter: a separator closes the current
segment, any other character extends it. -/
def splitLinesStep (sep : Char) (acc : List (List Char) × List Char)
    (c : Char) : List (List Char) × List Char :=
  if c = sep then (acc.1 ++ [acc.2], []) else (acc.1, acc.2 ++ [c])

/-- Split a character list at `sep`, returning the complete segments and
the trailing segment after the last separator (the segment that
`lines.pop()` puts back into the buffer). -/
def splitLines (sep : Char) (cs : List Char) : List (List Char) × List Char :=
  cs.foldl (splitLinesStep sep) ([], [])

theorem splitLines_foldl_of_not_mem (sep : Char) (cs : List Char)
    (hcs : sep ∉ cs) (L : List (List Char)) (cur : List Char) :
    cs.foldl (splitLinesStep sep) (L, cur) = (L, cur ++ cs) := by
  induction cs generalizing cur with
  | nil => simp
  | cons c cs ih =>
    simp only [List.mem_cons, not_or] at hcs
    simp only [List.foldl_cons, splitLinesStep]
    rw [if_neg (fun h => hcs.1 (Eq.symm h)), ih hcs.2]
    simp

theorem splitLines_foldl_shift (sep : Char) (cs : List Char)
    (L : List (List Char)) (cur : List Char) :
    cs.foldl (splitLinesStep sep) (L, cur) =
      (L ++ (cs.foldl (splitLinesStep sep) ([], cur)).1,
        (cs.foldl (splitLinesStep sep) ([], cur)).2) := by
  induction cs generalizing L cur with
  | nil => simp
  | cons c cs ih =>
    by_cases hc : c = sep
    · simp only [List.foldl_cons, splitLinesStep, if_pos hc, List.nil_append]
      rw [ih (L ++ [cur]) [], ih [cur] []]
      simp
    · simp only [List.foldl_cons, splitLinesStep, if_neg hc]
      exact ih L (cur ++ [c])

theorem splitLines_foldl_trailing_not_mem (sep : Char) (cs : List Char)
    (L : List (List Char)) (cur : List Char) (hcur : sep ∉ cur) :
    sep ∉ (cs.foldl (splitLinesStep sep) (L, cur)).2 := by
  induction cs generalizing L cur with
  | nil => simpa using hcur
  | cons c cs ih =>
    by_cases hc : c = sep
    · simp only [List.foldl_cons, splitLinesStep, if_pos hc]
      exact ih _ _ (by simp)
    · simp only [List.foldl_cons, splitLinesStep, if_neg hc]
      refine ih _ _ ?_
      simp only [List.mem_append, List.mem_singleton, not_or]
      exact ⟨hcur, fun h => hc h.symm⟩

theorem splitLines_trailing_not_mem (sep : Char) (x : List Char) :
    sep ∉ (splitLines sep x).2 :=
  splitLines_foldl_trailing_not_mem sep x [] [] (by simp)

theorem splitLines_resume (sep : Char) (buf t : List Char) (hbuf : sep ∉ buf) :
    splitLines sep (buf ++ t) = t.foldl (splitLinesStep sep) ([], buf) := by
  unfold splitLines
  rw [List.foldl_append, splitLines_foldl_of_not_mem sep buf hbuf [] []]
  simp

/-- Key fact behind chunk-delivery invariance of the line scanner:
splitting `buf ++ t1 ++ t2` in one go produces the lines of the first
split of `buf ++ t1` followed by the lines of re-splitting the retained
trailing segment with `t2` appended, and the same final trailing
segment. -/
theorem splitLines_chunk_append (sep : Char) (buf t1 t2 : List Char)
    (hbuf : sep ∉ buf) :
    splitLines sep (buf ++ (t1 ++ t2)) =
      ((splitLines sep (buf ++ t1)).1 ++
          (splitLines sep ((splitLines sep (buf ++ t1)).2 ++ t2)).1,
        (splitLines sep ((splitLines sep (buf ++ t1)).2 ++ t2)).2) := by
  have htr : sep ∉ (splitLines sep (buf ++ t1)).2 := by
    rw [splitLines_resume sep buf t1 hbuf]
    exact splitLines_foldl_trailing_not_mem sep t1 [] buf hbuf
  have hB := splitLines_resume sep (splitLines sep (buf ++ t1)).2 t2 htr
  have hshift := splitLines_foldl_shift sep t2 (splitLines sep (buf ++ t1)).1
    (splitLines sep (buf ++ t1)).2
  rw [Prod.mk.eta] at hshift
  calc splitLines sep (buf ++ (t1 ++ t2))
      = t2.foldl (splitLinesStep sep) (splitLines sep (buf ++ t1)) := by
        rw [show buf ++ (t1 ++ t2) = (buf ++ t1) ++ t2 by simp]
        unfold splitLines
        rw [List.foldl_append]
    _ = _ := by rw [hshift, hB]

/-! ## UTF-8 decoding

`parseOpenAIStream` creates one `TextDecoder` and calls
`decoder.decode(value, { stream: true })` per chunk (stateful streaming
decode); `parseAnthropicStream` calls `new TextDecoder().decode(value)`
per chunk (a fresh decoder each time, flushing an incomplete trailing
sequence to U+FFFD).  The decoder below follows the WHATWG UTF-8 decode
algorithm. -/

structure Utf8State where
  codepoint : Nat := 0
  needed : Nat := 0
  lower : Nat := 0x80
  upper : Nat := 0xBF
deriving DecidableEq, Repr

/-- The replacement character emitted on decode errors. -/
def repChar : Char := Char.ofNat 0xFFFD

/-- Handle one byte while no multi-byte sequence is in progress. -/
def utf8Begin (b : Nat) : Utf8State × List Char :=
  if b ≤ 0x7F then ({}, [Char.ofNat b])
  else if 0xC2 ≤ b ∧ b ≤ 0xDF then
    ({ codepoint := b % 32, needed := 1, lower := 0x80, upper := 0xBF }, [])
  else if b = 0xE0 then
    ({ codepoint := b % 16, needed := 2, lower := 0xA0, upper := 0xBF }, [])
  else if b = 0xED then
    ({ codepoint := b % 16, needed := 2, lower := 0x80, upper := 0x9F }, [])
  else if 0xE1 ≤ b ∧ b ≤ 0xEF then
    ({ codepoint := b % 16, needed := 2, lower := 0x80, upper := 0xBF }, [])
  else if b = 0xF0 then
    ({ codepoint := b % 8, needed := 3, lower := 0x90, upper := 0xBF }, [])
  else if b = 0xF4 then
    ({ codepoint := b % 8, needed := 3, lower := 0x80, upper := 0x8F }, [])
  else if 0xF1 ≤ b ∧ b ≤ 0xF3 then
    ({ codepoint := b % 8, needed := 3, lower := 0x80, upper := 0xBF }, [])
  else ({}, [repChar])

/-- One step of the WHATWG UTF-8 decoder.  On an invalid continuation
byte the decoder emits U+FFFD and reprocesses the byte as a new initial
byte. -/
def utf8Step (st : Utf8State) (b : Nat) : Utf8State × List Char :=
  if st.needed = 0 then utf8Begin b
  else if st.lower ≤ b ∧ b ≤ st.upper then
    let cp := st.codepoint * 64 + b % 64
    if st.needed = 1 then ({}, [Char.ofNat cp])
    else ({ codepoint := cp, needed := st.needed - 1, lower := 0x80, upper := 0xBF }, [])
  else
    let r := utf8Begin b
    (r.1, repChar :: r.2)

/-- Streaming decode of a byte chunk from a decoder state, as performed
by `decoder.decode(value, { stream: true })`: the trailing incomplete
sequence is retained in the state. -/
def utf8DecodeStreamCore : Utf8State → List Nat → Utf8State × List Char
  | st, [] => (st, [])
  | st, b :: bs =>
    let r := utf8Step st b
    let rest := utf8DecodeStreamCore r.1 bs
    (rest.1, r.2 ++ rest.2)

theorem utf8DecodeStreamCore_append (st : Utf8State) (b1 b2 : List Nat) :
    utf8DecodeStreamCore st (b1 ++ b2) =
      ((utf8DecodeStreamCore (utf8DecodeStreamCore st b1).1 b2).1,
        (utf8DecodeStreamCore st b1).2 ++
          (utf8DecodeStreamCore (utf8DecodeStreamCore st b1).1 b2).2) := by
  induction b1 generalizing st with
  | nil => simp [utf8DecodeStreamCore]
  | cons b bs ih => simp [utf8DecodeStreamCore, ih]

/-- One-shot decode with a fresh decoder, as performed by
`new TextDecoder().decode(value)`: an incomplete trailing sequence is
flushed to a single U+FFFD. -/
def utf8DecodeFull (bs : List Nat) : List Char :=
  let r := utf8DecodeStreamCore {} bs
  if r.1.needed = 0 then r.2 else r.2 ++ [repChar]

theorem utf8Step_ascii (b : Nat) (hb : b < 128) :
    utf8Step {} b = ({}, [Char.ofNat b]) := by
  have h1 : b ≤ 0x7F := by omega
  simp [utf8Step, utf8Begin, h1]

theorem utf8DecodeStreamCore_ascii (bs : List Nat) (h : ∀ b ∈ bs, b < 128) :
    utf8DecodeStreamCore {} bs = ({}, bs.map Char.ofNat) := by
  induction bs with
  | nil => simp [utf8DecodeStreamCore]
  | cons b bs ih =>
    have hb : b < 128 := h b (by simp)
    have hrest : ∀ x ∈ bs, x < 128 := fun x hx => h x (by simp [hx])
    simp only [utf8DecodeStreamCore, utf8Step_ascii b hb, ih hrest]
    simp

theorem utf8DecodeFull_ascii_append (b1 b2 : List Nat)
    (h1 : ∀ b ∈ b1, b < 128) (h2 : ∀ b ∈ b2, b < 128) :
    utf8DecodeFull (b1 ++ b2) = utf8DecodeFull b1 ++ utf8DecodeFull b2 := by
  have hall : ∀ b ∈ b1 ++ b2, b < 128 := by
    intro b hb
    rcases List.mem_append.mp hb with h | h
    · exact h1 b h
    · exact h2 b h
  simp [utf8DecodeFull, utf8DecodeStreamCore_ascii _ hall,
    utf8DecodeStreamCore_ascii _ h1, utf8DecodeStreamCore_ascii _ h2]

/-! ## JSON values

Executable model of `JSON.parse` / `JSON.stringify`.  Numbers are kept
syntactically as mantissa/scale/exponent (the sources only ever consume
integer-valued fields, and only compare parsed values structurally). -/

mutual

inductive Json where
  | null : Json
  | bool (b : Bool) : Json
  | num (mant : Int) (scale : Nat) (ex : Int) : Json
  | str (s : String) : Json
  | arr (elems : JArr) : Json
  | obj (fields : JObj) : Json

inductive JArr where
  | nil : JArr
  | cons (hd : Json) (tl : JArr) : JArr

inductive JObj where
  | nil : JObj
  | cons (key : String) (val : Json) (tl : JObj) : JObj

end

def JArr.toList : JArr → List Json
  | .nil => []
  | .cons h t => h :: t.toList

def JArr.ofList : List Json → JArr
  | [] => .nil
  | h :: t => .cons h (JArr.ofList t)

def JObj.ofList : List (String × Json) → JObj
  | [] => .nil
  | (k, v) :: t => .cons k v (JObj.ofList t)

/-- Build an object literal from a key/value list. -/
def Json.mkObj (l : List (String × Json)) : Json := .obj (JObj.ofList l)

/-- The empty JSON object. -/
def Json.emptyObj : Json := .obj .nil

/-- Property lookup; on duplicate keys the later entry wins, as in the
object produced by JavaScript's `JSON.parse`. -/
def JObj.get : JObj → String → Option Json
  | .nil, _ => none
  | .cons k v t, key =>
    match t.get key with
    | some r => some r
    | none => if k = key then some v else none

/-- Model of JavaScript property access `j["k"]` on a parsed JSON value:
 `undefined` (here `none`) on anything that is not an object with that
key. -/
def Json.getField : Json → String → Option Json
  | .obj o, key => o.get key
  | _, _ => none

def Json.asString : Json → Option String
  | .str s => some s
  | _ => none

/-- Extract an integer-valued JSON number. -/
def Json.asIntVal : Json → Option Int
  | .num m 0 0 => some m
  | _ => none

/-- JavaScript truthiness of a parsed JSON value. -/
def jsTruthy : Json → Bool
  | .null => false
  | .bool b => b
  | .num m _ _ => m ≠ 0
  | .str s => s ≠ ""
  | .arr _ => true
  | .obj _ => true

/-! ### Parsing -/

/-- JSON insignificant whitespace. -/
def skipWs (cs : List Char) : List Char :=
  cs.dropWhile isWsChar

def isDigitChar (c : Char) : Bool := '0' ≤ c ∧ c ≤ '9'

def digitVal (c : Char) : Nat := c.toNat - '0'.toNat

def digitsToNat (ds : List Char) : Nat :=
  ds.foldl (fun acc c => acc * 10 + digitVal c) 0

def hexVal (c : Char) : Option Nat :=
  if '0' ≤ c ∧ c ≤ '9' then some (c.toNat - '0'.toNat)
  else if 'a' ≤ c ∧ c ≤ 'f' then some (c.toNat - 'a'.toNat + 10)
  else if 'A' ≤ c ∧ c ≤ 'F' then some (c.toNat - 'A'.toNat + 10)
  else none

/-- Parse the body of a JSON string literal (after the opening quote),
returning the decoded string and the rest of the input.  Lone-surrogate
`\uXXXX` escapes are mapped through `Char.ofNat` (which substitutes NUL
for invalid scalar values); no modelled behaviour depends on them. -/
def parseStringBody : Nat → List Char → List Char → Option (String × List Char)
  | 0, _, _ => none
  | Nat.succ fuel, acc, cs =>
    match cs with
    | [] => none
    | '"' :: rest => some (String.mk acc.reverse, rest)
    | '\\' :: rest =>
      match rest with
      | [] => none
      | e :: rest2 =>
        if e = '"' then parseStringBody fuel ('"' :: acc) rest2
        else if e = '\\' then parseStringBody fuel ('\\' :: acc) rest2
        else if e = '/' then parseStringBody fuel ('/' :: acc) rest2
        else if e = 'b' then parseStringBody fuel ('\x08' :: acc) rest2
        else if e = 'f' then parseStringBody fuel ('\x0c' :: acc) rest2
        else if e = 'n' then parseStringBody fuel ('\n' :: acc) rest2
        else if e = 'r' then parseStringBody fuel ('\r' :: acc) rest2
        else if e = 't' then parseStringBody fuel ('\t' :: acc) rest2
        else if e = 'u' then
          match rest2 with
          | h1 :: h2 :: h3 :: h4 :: rest3 =>
            match hexVal h1, hexVal h2, hexVal h3, hexVal h4 with
            | some v1, some v2, some v3, some v4 =>
              parseStringBody fuel
                (Char.ofNat (((v1 * 16 + v2) * 16 + v3) * 16 + v4) :: acc) rest3
            | _, _, _, _ => none
          | _ => none
        else none
    | c :: rest =>
      if c.toNat < 0x20 then none else parseStringBody fuel (c :: acc) rest

/-- Parse a JSON number literal (RFC 8259 grammar: optional minus,
integer part without leading zeros, optional fraction, optional
exponent). -/
def parseNumberLit (cs : List Char) : Option (Json × List Char) :=
  let (neg, cs1) :=
    match cs with
    | '-' :: rest => (true, rest)
    | _ => (false, cs)
  let intDs := cs1.takeWhile isDigitChar
  let cs2 := cs1.dropWhile isDigitChar
  if intDs = [] then none
  else if intDs.length > 1 ∧ intDs.headI = '0' then none
  else
    let (fracDs, cs3) :=
      match cs2 with
      | '.' :: rest => (rest.takeWhile isDigitChar, rest.dropWhile isDigitChar)
      | _ => ([], cs2)
    if cs2 ≠ [] ∧ cs2.headI = '.' ∧ fracDs = [] then none
    else
      let mant0 : Nat := digitsToNat intDs * 10 ^ fracDs.length + digitsToNat fracDs
      let mant : Int := if neg then -(mant0 : Int) else (mant0 : Int)
      match cs3 with
      | 'e' :: rest => parseExpPart mant fracDs.length rest
      | 'E' :: rest => parseExpPart mant fracDs.length rest
      | _ => some (.num mant fracDs.length 0, cs3)
where
  parseExpPart (mant : Int) (scale : Nat) (rest : List Char) :
      Option (Json × List Char) :=
    let (eneg, rest1) :=
      match rest with
      | '+' :: r => (false, r)
      | '-' :: r => (true, r)
      | _ => (false, rest)
    let expDs := rest1.takeWhile isDigitChar
    let rest2 := rest1.dropWhile isDigitChar
    if expDs = [] then none
    else
      let e : Int := if eneg then -(digitsToNat expDs : Int) else (digitsToNat expDs : Int)
      some (.num mant scale e, rest2)

mutual

/-- Parse one JSON value (fuel-indexed; `Json.parse` supplies enough
fuel for any input). -/
def parseVal : Nat → List Char → Option (Json × List Char)
  | 0, _ => none
  | Nat.succ fuel, cs =>
    match skipWs cs with
    | [] => none
    | c :: rest =>
      if c = 'n' then
        match rest with
        | 'u' :: 'l' :: 'l' :: rest2 => some (.null, rest2)
        | _ => none
      else if c = 't' then
        match rest with
        | 'r' :: 'u' :: 'e' :: rest2 => some (.bool true, rest2)
        | _ => none
      else if c = 'f' then
        match rest with
        | 'a' :: 'l' :: 's' :: 'e' :: rest2 => some (.bool false, rest2)
        | _ => none
      else if c = '"' then
        match parseStringBody (rest.length + 1) [] rest with
        | some (s, rest2) => some (.str s, rest2)
        | none => none
      else if c = '[' then
        match skipWs rest with
        | ']' :: rest2 => some (.arr .nil, rest2)
        | _ =>
          match parseArrItems fuel rest with
          | some (a, rest2) => some (.arr a, rest2)
          | none => none
      else if c = '{' then
        match skipWs rest with
        | '}' :: rest2 => some (.obj .nil, rest2)
        | _ =>
          match parseObjItems fuel rest with
          | some (o, rest2) => some (.obj o, rest2)
          | none => none
      else parseNumberLit (c :: rest)

/-- Parse the comma-separated items of a non-empty JSON array, up to and
including the closing bracket. -/
def parseArrItems : Nat → List Char → Option (JArr × List Char)
  | 0, _ => none
  | Nat.succ fuel, cs =>
    match parseVal fuel cs with
    | none => none
    | some (v, rest) =>
      match skipWs rest with
      | ',' :: rest2 =>
        match parseArrItems fuel rest2 with
        | some (a, rest3) => some (.cons v a, rest3)
        | none => none
      | ']' :: rest2 => some (.cons v .nil, rest2)
      | _ => none

/-- Parse the comma-separated members of a non-empty JSON object, up to
and including the closing brace. -/
def parseObjItems : Nat → List Char → Option (JObj × List Char)
  | 0, _ => none
  | Nat.succ fuel, cs =>
    match skipWs cs with
    | '"' :: rest =>
      match parseStringBody (rest.length + 1) [] rest with
      | none => none
      | some (k, rest2) =>
        match skipWs rest2 with
        | ':' :: rest3 =>
          match parseVal fuel rest3 with
          | none => none
          | some (v, rest4) =>
            match skipWs rest4 with
            | ',' :: rest5 =>
              match parseObjItems fuel rest5 with
              | some (o, rest6) => some (.cons k v o, rest6)
              | none => none
            | '}' :: rest5 => some (.cons k v .nil, rest5)
            | _ => none
        | _ => none
    | _ => none

end

/-- Model of `JSON.parse`: `none` means the call throws a `SyntaxError`.
Trailing non-whitespace input is rejected, as in JavaScript. -/
def Json.parse (s : String) : Option Json :=
  match parseVal (s.length + 1) s.data with
  | some (v, rest) => if skipWs rest = [] then some v else none
  | none => none

/-! ### Serialisation -/

/-- Escape one character for a JSON string literal. -/
def jsonEscapeChar (c : Char) : List Char :=
  if c = '"' then ['\\', '"']
  else if c = '\\' then ['\\', '\\']
  else if c = '\n' then ['\\', 'n']
  else if c = '\r' then ['\\', 'r']
  else if c = '\t' then ['\\', 't']
  else if c = '\x08' then ['\\', 'b']
  else if c = '\x0c' then ['\\', 'f']
  else if c.toNat < 0x20 then
    let hexDigit : Nat → Char := fun n =>
      if n < 10 then Char.ofNat ('0'.toNat + n) else Char.ofNat ('a'.toNat + n - 10)
    ['\\', 'u', '0', '0', hexDigit (c.toNat / 16), hexDigit (c.toNat % 16)]
  else [c]

def jsonEscape (s : String) : String :=
  String.mk (s.data.map jsonEscapeChar).flatten

mutual

/-- Model of `JSON.stringify` (numbers that were parsed with a fraction
or exponent are rendered in a canonical mantissa/exponent form rather
than JavaScript float formatting; no modelled behaviour depends on
them). -/
def Json.stringify : Json → String
  | .null => "null"
  | .bool true => "true"
  | .bool false => "false"
  | .num m 0 0 => toString m
  | .num m s e => toString m ++ "e" ++ toString (e - (s : Int))
  | .str s => "\"" ++ jsonEscape s ++ "\""
  | .arr a => "[" ++ JArr.stringifyItems a ++ "]"
  | .obj o => "\x7b" ++ JObj.stringifyItems o ++ "\x7d"

def JArr.stringifyItems : JArr → String
  | .nil => ""
  | .cons h .nil => h.stringify
  | .cons h (.cons h2 t) => h.stringify ++ "," ++ JArr.stringifyItems (.cons h2 t)

def JObj.stringifyItems : JObj → String
  | .nil => ""
  | .cons k v .nil => "\"" ++ jsonEscape k ++ "\":" ++ v.stringify
  | .cons k v (.cons k2 v2 t) =>
    "\"" ++ jsonEscape k ++ "\":" ++ v.stringify ++ "," ++
      JObj.stringifyItems (.cons k2 v2 t)

end

deriving instance DecidableEq for Json

/-! ## Canonical (Gemini-shaped) response model

Shapes from `@google/genai` as populated by the providers:
`GenerateContentResponse` with `candidates` / `usageMetadata`. -/

inductive FinishReason where
  | STOP
  | MAX_TOKENS
  | SAFETY
  | OTHER
deriving DecidableEq, Repr

structure FunctionCallOut where
  id : Option String
  name : String
  args : Json
deriving DecidableEq

/-- An emitted content part: the providers push either `{ text }` or
`{ functionCall }` objects. -/
structure PartOut where
  text : Option String := none
  functionCall : Option FunctionCallOut := none
deriving DecidableEq

structure ContentOut where
  role : String
  parts : List PartOut
deriving DecidableEq

structure UsageMeta where
  promptTokenCount : Option Int
  candidatesTokenCount : Option Int
  totalTokenCount : Option Int
deriving DecidableEq

structure CandidateOut where
  content : ContentOut
  finishReason : Option FinishReason
  index : Option Int
deriving DecidableEq

structure GenResponse where
  candidates : List CandidateOut
  usageMetadata : Option UsageMeta := none
deriving DecidableEq

/-- A `{ functionCall: ... }` part. -/
def mkFcPart (id : Option String) (name : String) (args : Json) : PartOut :=
  { functionCall := some { id := id, name := name, args := args } }

/-- All text fragments carried by a list of emitted responses, in order
(used to compare observable stream output). -/
def emittedTexts (rs : List GenResponse) : List String :=
  ((rs.map (fun r => r.candidates)).flatten.map
    (fun c => c.content.parts.filterMap (fun p => p.text))).flatten

/-- Model of `undefined`-propagating addition (`input_tokens +
output_tokens` with both fields present). -/
def optAdd (a b : Option Int) : Option Int :=
  match a, b with
  | some x, some y => some (x + y)
  | _, _ => none

/-! ## OpenAI provider: stream parsing

Shallow embedding of `OpenAIProvider.parseOpenAIStream`
(`packages/core/src/providers/openaiProvider.ts`) and its helpers
`convertFinishReason` and `parseToolCallArguments`. -/

/-- OpenAI `convertFinishReason` (openaiProvider.ts): the four
recognised codes; everything else returns `undefined`. -/
def convertOpenAIFinishReason (reason : String) : Option FinishReason :=
  if reason = "stop" then some .STOP
  else if reason = "length" then some .MAX_TOKENS
  else if reason = "content_filter" then some .SAFETY
  else if reason = "tool_calls" then some .STOP
  else none

/-- OpenAI `parseToolCallArguments`: empty/whitespace argument strings
and JSON parse failures degrade to the empty object. -/
def parseToolCallArguments (argumentsStr : String) : Json :=
  if argumentsStr = "" ∨ trimChars argumentsStr.data = [] then Json.emptyObj
  else
    match Json.parse argumentsStr with
    | some v => v
    | none => Json.emptyObj

/-- Runtime view of `delta.tool_calls[i].function`. -/
structure OpenAIFnView where
  name : Option String := none
  arguments : Option String := none
deriving DecidableEq

/-- Runtime view of one element of `delta.tool_calls` (the TypeScript
`function` field is spelled `fn`, `function` being reserved in Lean). -/
structure OpenAIToolCallView where
  id : Option String := none
  fn : Option OpenAIFnView := none
deriving DecidableEq

structure OpenAIDeltaView where
  content : Option String := none
  tool_calls : Option (List OpenAIToolCallView) := none
deriving DecidableEq

structure OpenAIChoiceView where
  delta : OpenAIDeltaView
  finish_reason : Option String := none
  index : Option Int := none
deriving DecidableEq

structure UsageView where
  prompt_tokens : Option Int := none
  completion_tokens : Option Int := none
  total_tokens : Option Int := none
deriving DecidableEq

def decodeUsageView (j : Json) : UsageView :=
  { prompt_tokens := (j.getField "prompt_tokens").bind Json.asIntVal
    completion_tokens := (j.getField "completion_tokens").bind Json.asIntVal
    total_tokens := (j.getField "total_tokens").bind Json.asIntVal }

def decodeOpenAIFn (j : Json) : OpenAIFnView :=
  { name := (j.getField "name").bind Json.asString
    arguments := (j.getField "arguments").bind Json.asString }

/-- Decode one `tool_calls` element; `if (toolCall.function)` guards the
use of the field, so a falsy `function` is decoded to `none`. -/
def decodeOpenAIToolCall (j : Json) : OpenAIToolCallView :=
  { id := (j.getField "id").bind Json.asString
    fn :=
      match j.getField "function" with
      | some f => if jsTruthy f then some (decodeOpenAIFn f) else none
      | none => none }

/-- Decode `chunk.choices?.[0]`.  The handler dereferences
`choice.delta` without a guard, so a missing or null `delta` makes the
surrounding try/catch skip the whole event; this decoder returns `none`
in exactly the situations in which the event has no effect (falsy
choice, `continue`; missing/null delta, caught TypeError). -/
def decodeOpenAIChoice (j : Json) : Option OpenAIChoiceView :=
  if ¬ jsTruthy j then none
  else
    match j.getField "delta" with
    | none => none
    | some .null => none
    | some d =>
      some
        { delta :=
            { content := (d.getField "content").bind Json.asString
              tool_calls :=
                match d.getField "tool_calls" with
                | some (.arr a) => some (a.toList.map decodeOpenAIToolCall)
                | _ => none }
          finish_reason := (j.getField "finish_reason").bind Json.asString
          index := (j.getField "index").bind Json.asIntVal }

/-- Decode one parsed OpenAI stream chunk into the data the handler
uses: the first choice and (per `if (chunk.usage)`) a truthy usage
object.  `none` means the event is skipped without effect. -/
def decodeOpenAIChunk (j : Json) : Option (OpenAIChoiceView × Option UsageView) :=
  match j.getField "choices" with
  | some (.arr a) =>
    match a.toList.head? with
    | none => none
    | some cj =>
      match decodeOpenAIChoice cj with
      | none => none
      | some cv =>
        some
          (cv,
            match j.getField "usage" with
            | some u => if jsTruthy u then some (decodeUsageView u) else none
            | none => none)
  | _ => none

/-- The in-flight tool-call accumulator `currentToolCall`. -/
structure OToolAcc where
  id : Option String
  name : String
  arguments : String
deriving DecidableEq

/-- Generator-local parse state of `parseOpenAIStream`: the `[DONE]`
early-return flag, the accumulator, and the responses yielded so far. -/
structure OpenAIParseState where
  done : Bool := false
  cur : Option OToolAcc := none
  out : List GenResponse := []
deriving DecidableEq

def usageMetaOfView (u : UsageView) : UsageMeta :=
  { promptTokenCount := u.prompt_tokens
    candidatesTokenCount := u.completion_tokens
    totalTokenCount := u.total_tokens }

/-- The function-call part flushed from a completed accumulator. -/
def oaiFlushPart (cur : OToolAcc) : PartOut :=
  mkFcPart cur.id cur.name (parseToolCallArguments cur.arguments)

/-- Handle one decoded OpenAI stream event (the body of the per-line
try block of `parseOpenAIStream` after `JSON.parse`). -/
def openaiHandleEvent (s : OpenAIParseState) (cv : OpenAIChoiceView)
    (usage : Option UsageView) : OpenAIParseState :=
  let parts0 : List PartOut :=
    if jsTruthyOS cv.delta.content then [{ text := cv.delta.content }] else []
  let step :=
    fun (acc : List PartOut × Option OToolAcc) (tc : OpenAIToolCallView) =>
      match tc.fn with
      | none => acc
      | some f =>
        if jsTruthyOS f.name then
          let acc1 :=
            match acc.2 with
            | some cur =>
              if jsTruthyOS cur.id ∧ cur.name ≠ "" then
                (acc.1 ++ [oaiFlushPart cur], acc.2)
              else acc
            | none => acc
          (acc1.1,
            some { id := tc.id, name := f.name.getD "",
                   arguments := f.arguments.getD "" })
        else if acc.2.isSome ∧ jsTruthyOS f.arguments then
          (acc.1,
            acc.2.map (fun cur =>
              { cur with arguments := cur.arguments ++ f.arguments.getD "" }))
        else acc
  let r1 :=
    match cv.delta.tool_calls with
    | none => (parts0, s.cur)
    | some tcs => tcs.foldl step (parts0, s.cur)
  let finishTruthy := jsTruthyOS cv.finish_reason
  let r2 :=
    match r1.2 with
    | some cur =>
      if finishTruthy ∨ (cv.delta.tool_calls.isNone ∧ ¬ jsTruthyOS cv.delta.content) then
        (r1.1 ++ [oaiFlushPart cur], (none : Option OToolAcc))
      else r1
    | none => r1
  if r2.1.isEmpty then { s with cur := r2.2 }
  else
    let fr : Option FinishReason :=
      if finishTruthy then convertOpenAIFinishReason (cv.finish_reason.getD "")
      else some .STOP
    { s with
      cur := r2.2
      out := s.out ++
        [{ candidates :=
            [{ content := { role := "model", parts := r2.1 },
               finishReason := fr, index := cv.index }]
           usageMetadata := usage.map usageMetaOfView }] }

/-- The response yielded when `[DONE]` arrives with a completed-enough
accumulator (`currentToolCall.id && currentToolCall.name`). -/
def oaiDoneFlushResp (cur : OToolAcc) : GenResponse :=
  { candidates :=
      [{ content := { role := "model", parts := [oaiFlushPart cur] },
         finishReason := some .STOP, index := some 0 }] }

/-- Handle one complete line of the OpenAI SSE stream: trim, require the
`"data: "` marker, handle the `[DONE]` sentinel (flush + generator
return), otherwise `JSON.parse` and dispatch; parse failures are
skipped. -/
def openaiHandleLine (s : OpenAIParseState) (line : List Char) : OpenAIParseState :=
  if s.done then s
  else
    let trimmed := trimChars line
    if dataMarker.isPrefixOf trimmed then
      let jsonData := trimmed.drop 6
      if jsonData = doneMarker then
        let s1 :=
          match s.cur with
          | some cur =>
            if jsTruthyOS cur.id ∧ cur.name ≠ "" then
              { s with out := s.out ++ [oaiDoneFlushResp cur] }
            else s
          | none => s
        { s1 with done := true }
      else
        match Json.parse (String.mk jsonData) with
        | none => s
        | some j =>
          match decodeOpenAIChunk j with
          | none => s
          | some (cv, usage) => openaiHandleEvent s cv usage
    else s

/-- The full per-read state of `parseOpenAIStream`: decoder, line
buffer, parse state. -/
structure OpenAIStreamState where
  dec : Utf8State := {}
  buffer : List Char := []
  ps : OpenAIParseState := {}
deriving DecidableEq

/-- One reader iteration of `parseOpenAIStream`: streaming-decode the
chunk, append to the buffer, split off complete lines, keep the trailing
segment, process the lines.  After the generator has returned (`done`),
further chunks are never read. -/
def openaiChunkStep (s : OpenAIStreamState) (bytes : List Nat) : OpenAIStreamState :=
  if s.ps.done then s
  else
    let r := utf8DecodeStreamCore s.dec bytes
    let sl := splitLines '\n' (s.buffer ++ r.2)
    { dec := r.1, buffer := sl.2, ps := sl.1.foldl openaiHandleLine s.ps }

/-- The sequence of canonical partial responses emitted by
`parseOpenAIStream` on a byte stream delivered as the given chunks. -/
def parseOpenAIStream (chunks : List (List Nat)) : List GenResponse :=
  (chunks.foldl openaiChunkStep {}).ps.out

/-! ## Anthropic provider: stream parsing

Shallow embedding of `AnthropicProvider.parseAnthropicStream`
(anthropicProvider.ts) and its `convertFinishReason`. -/

/-- Anthropic `convertFinishReason`: total, with `OTHER` as the default
for unrecognised stop reasons. -/
def convertAnthropicFinishReason (reason : String) : FinishReason :=
  if reason = "stop_sequence" then .STOP
  else if reason = "max_tokens" then .MAX_TOKENS
  else if reason = "end_turn" then .STOP
  else if reason = "tool_use" then .STOP
  else .OTHER

structure AUsageView where
  input_tokens : Option Int := none
  output_tokens : Option Int := none
deriving DecidableEq

def decodeAUsageView (j : Json) : AUsageView :=
  { input_tokens := (j.getField "input_tokens").bind Json.asIntVal
    output_tokens := (j.getField "output_tokens").bind Json.asIntVal }

/-- The fields of an `AnthropicStreamChunk` that the handler reads
(all behind optional chaining, so decoding is total). -/
structure AnthEventView where
  type : Option String := none
  blockType : Option String := none
  blockId : Option String := none
  blockName : Option String := none
  deltaText : Option String := none
  deltaType : Option String := none
  deltaPartJson : Option String := none
  deltaStop : Option String := none
  usage : Option AUsageView := none
deriving DecidableEq

/-- Decode a parsed Anthropic stream event (`data.type`,
`data.content_block?.{type,id,name}`,
`data.delta?.{text,type,partial_json,stop_reason}`, `data.usage`). -/
def decodeAnthEvent (j : Json) : AnthEventView :=
  { type := (j.getField "type").bind Json.asString
    blockType := ((j.getField "content_block").bind (fun b => b.getField "type")).bind Json.asString
    blockId := ((j.getField "content_block").bind (fun b => b.getField "id")).bind Json.asString
    blockName := ((j.getField "content_block").bind (fun b => b.getField "name")).bind Json.asString
    deltaText := ((j.getField "delta").bind (fun d => d.getField "text")).bind Json.asString
    deltaType := ((j.getField "delta").bind (fun d => d.getField "type")).bind Json.asString
    deltaPartJson := ((j.getField "delta").bind (fun d => d.getField "partial_json")).bind Json.asString
    deltaStop := ((j.getField "delta").bind (fun d => d.getField "stop_reason")).bind Json.asString
    usage :=
      match j.getField "usage" with
      | some u => if jsTruthy u then some (decodeAUsageView u) else none
      | none => none }

/-- The in-flight `currentToolUse` accumulator. -/
structure AToolUse where
  id : Option String := none
  name : Option String := none
  inputJson : String := ""
deriving DecidableEq

/-- Generator-local parse state of `parseAnthropicStream`. -/
structure AnthParseState where
  cur : Option AToolUse := none
  finalUsage : Option AUsageView := none
  out : List GenResponse := []
deriving DecidableEq

/-- The response yielded for a text delta (`finishReason` is hard-coded
to STOP on every delta chunk). -/
def anthTextDeltaResp (t : String) : GenResponse :=
  { candidates :=
      [{ content := { role := "model", parts := [{ text := some t }] },
         finishReason := some .STOP, index := some 0 }] }

/-- The response yielded at `content_block_stop` for a completed tool
use: the accumulated argument string is parsed, substituting the empty
object when empty or unparseable. -/
def anthToolStopResp (c : AToolUse) : GenResponse :=
  let parsedInput :=
    if c.inputJson ≠ "" then
      match Json.parse c.inputJson with
      | some v => v
      | none => Json.emptyObj
    else Json.emptyObj
  { candidates :=
      [{ content :=
           { role := "model",
             parts := [mkFcPart c.id (c.name.getD "") parsedInput] },
         finishReason := some .STOP, index := some 0 }] }

/-- The response yielded for a `message_delta` stop reason, carrying the
final usage if one was captured. -/
def anthStopReasonResp (reason : String) (fu : Option AUsageView) : GenResponse :=
  { candidates :=
      [{ content := { role := "model", parts := [{ text := some "" }] },
         finishReason := some (convertAnthropicFinishReason reason),
         index := some 0 }]
    usageMetadata :=
      fu.map (fun u =>
        { promptTokenCount := u.input_tokens
          candidatesTokenCount := u.output_tokens
          totalTokenCount := optAdd u.input_tokens u.output_tokens }) }

/-- Handle one decoded Anthropic stream event: the six sequential `if`
blocks of `parseAnthropicStream`. -/
def anthropicHandleEvent (s : AnthParseState) (e : AnthEventView) : AnthParseState :=
  let s1 :=
    if e.type = some "content_block_start" ∧ e.blockType = some "tool_use" then
      { s with cur := some { id := e.blockId, name := e.blockName, inputJson := "" } }
    else s
  let s2 :=
    if e.type = some "content_block_delta" ∧ jsTruthyOS e.deltaText then
      { s1 with out := s1.out ++ [anthTextDeltaResp (e.deltaText.getD "")] }
    else s1
  let s3 :=
    if e.type = some "content_block_delta" ∧ s2.cur.isSome ∧
        e.deltaType = some "input_json_delta" then
      { s2 with
        cur := s2.cur.map (fun c =>
          { c with inputJson := c.inputJson ++ e.deltaPartJson.getD "" }) }
    else s2
  let s4 :=
    match s3.cur with
    | some c =>
      if e.type = some "content_block_stop" ∧ jsTruthyOS c.name then
        { s3 with out := s3.out ++ [anthToolStopResp c], cur := none }
      else s3
    | none => s3
  let s5 :=
    if e.type = some "message_stop" ∧ e.usage.isSome then
      { s4 with finalUsage := e.usage }
    else s4
  if e.type = some "message_delta" ∧ jsTruthyOS e.deltaStop then
    { s5 with out := s5.out ++ [anthStopReasonResp (e.deltaStop.getD "") s5.finalUsage] }
  else s5

/-- Handle one complete line of the Anthropic SSE stream: skip blank
lines and lines without the raw `"data: "` marker, trim the payload,
skip when empty, `JSON.parse` and dispatch; parse failures are
skipped. -/
def anthropicHandleLine (s : AnthParseState) (line : List Char) : AnthParseState :=
  if trimChars line = [] ∨ ¬ dataMarker.isPrefixOf line then s
  else
    let jsonStr := trimChars (line.drop 6)
    if jsonStr = [] then s
    else
      match Json.parse (String.mk jsonStr) with
      | none => s
      | some j => anthropicHandleEvent s (decodeAnthEvent j)

/-- The full per-read state of `parseAnthropicStream`. -/
structure AnthStreamState where
  buffer : List Char := []
  ps : AnthParseState := {}
deriving DecidableEq

/-- One reader iteration of `parseAnthropicStream`: a fresh
`TextDecoder` decodes the chunk in one shot, then buffering and line
processing as for OpenAI. -/
def anthropicChunkStep (s : AnthStreamState) (bytes : List Nat) : AnthStreamState :=
  let text := utf8DecodeFull bytes
  let sl := splitLines '\n' (s.buffer ++ text)
  { buffer := sl.2, ps := sl.1.foldl anthropicHandleLine s.ps }

/-- The sequence of canonical partial responses emitted by
`parseAnthropicStream` on a byte stream delivered as the given chunks. -/
def parseAnthropicStream (chunks : List (List Nat)) : List GenResponse :=
  (chunks.foldl anthropicChunkStep {}).ps.out

/-- The bytes of an ASCII string (used to build concrete stream
inputs). -/
def strBytes (s : String) : List Nat := s.data.map Char.toNat

/-! ## Single-shot response converters -/

/-- Typed view of an OpenAI chat-completion choice message. -/
structure OpenAIRespMessage where
  content : Option String := none
  tool_calls : Option (List OpenAIToolCallView) := none
deriving DecidableEq

structure OpenAIRespChoice where
  message : OpenAIRespMessage
  finish_reason : String
deriving DecidableEq

structure OpenAIChatResponseW where
  choices : List OpenAIRespChoice
  usage : Option UsageView := none
deriving DecidableEq

/-- Shallow embedding of `OpenAIProvider.convertOpenAIToGeminiResponse`:
`none` models the thrown `Invalid response format from OpenAI` error
when there is no first choice; text content first, then tool calls, and
an empty-text part when no part was produced. -/
def convertOpenAIToGeminiResponse (r : OpenAIChatResponseW) : Option GenResponse :=
  match r.choices.head? with
  | none => none
  | some choice =>
    let parts0 : List PartOut :=
      if jsTruthyOS choice.message.content then [{ text := choice.message.content }]
      else []
    let parts1 :=
      parts0 ++
        (match choice.message.tool_calls with
         | none => []
         | some tcs =>
           tcs.filterMap (fun tc =>
             match tc.fn with
             | some f =>
               some (mkFcPart tc.id (f.name.getD "")
                 (parseToolCallArguments (f.arguments.getD "")))
             | none => none))
    let parts2 := if parts1.isEmpty then [{ text := some "" }] else parts1
    some
      { candidates :=
          [{ content := { role := "model", parts := parts2 },
             finishReason := convertOpenAIFinishReason choice.finish_reason,
             index := some 0 }]
        usageMetadata :=
          some
            { promptTokenCount := some ((r.usage.bind (fun u => u.prompt_tokens)).getD 0)
              candidatesTokenCount := some ((r.usage.bind (fun u => u.completion_tokens)).getD 0)
              totalTokenCount := some ((r.usage.bind (fun u => u.total_tokens)).getD 0) } }

/-- One content block of an Anthropic Messages response. -/
structure AnthRespBlock where
  type : String
  text : Option String := none
  id : Option String := none
  name : Option String := none
  input : Option Json := none
deriving DecidableEq

structure AnthUsageResp where
  input_tokens : Int
  output_tokens : Int
deriving DecidableEq

structure AnthChatResponseW where
  content : List AnthRespBlock
  stop_reason : String
  usage : AnthUsageResp
deriving DecidableEq

/-- The part produced from one Anthropic response content block, if any
(`content.type === 'text' && content.text`, else
`content.type === 'tool_use' && content.name && content.input`). -/
def anthRespBlockPart (b : AnthRespBlock) : Option PartOut :=
  if b.type = "text" ∧ jsTruthyOS b.text then some { text := b.text }
  else if b.type = "tool_use" ∧ jsTruthyOS b.name ∧
      (b.input.map jsTruthy).getD false then
    some
      { functionCall :=
          some { id := b.id, name := b.name.getD "", args := b.input.getD Json.null } }
  else none

/-- Shallow embedding of
`AnthropicProvider.convertAnthropicToGeminiResponse`: one part per
qualifying content block, with no fallback part when nothing
qualifies. -/
def convertAnthropicToGeminiResponse (r : AnthChatResponseW) : GenResponse :=
  { candidates :=
      [{ content := { role := "model", parts := r.content.filterMap anthRespBlockPart },
         finishReason := some (convertAnthropicFinishReason r.stop_reason),
         index := some 0 }]
    usageMetadata :=
      some
        { promptTokenCount := some r.usage.input_tokens
          candidatesTokenCount := some r.usage.output_tokens
          totalTokenCount := some (r.usage.input_tokens + r.usage.output_tokens) } }

/-! ## Canonical request-side content model

The `ContentListUnion` the translators receive: strings, `Content`
objects (`role` + optional `parts`), or bare `Part` objects; a part is a
string or an object with optional `text` / `functionCall` /
`functionResponse` fields. -/

structure FunctionCallIn where
  id : Option String := none
  name : Option String := none
  args : Option Json := none
deriving DecidableEq

structure FunctionResponseIn where
  id : Option String := none
  name : Option String := none
  response : Option Json := none
deriving DecidableEq

structure PartObj where
  text : Option String := none
  functionCall : Option FunctionCallIn := none
  functionResponse : Option FunctionResponseIn := none
deriving DecidableEq

inductive PartU where
  | str (s : String)
  | part (p : PartObj)
deriving DecidableEq

structure ContentIn where
  role : String
  parts : Option (List PartU) := none
deriving DecidableEq

/-- One element of the content array: string, `Content`, or bare
`Part`. -/
inductive CU where
  | str (s : String)
  | cnt (c : ContentIn)
  | prt (p : PartObj)
deriving DecidableEq

/-- Union `ContentListUnion`: a single element or an array
(`Array.isArray(contents) ? contents : [contents]`). -/
inductive ContentListUnion where
  | single (u : CU)
  | many (l : List CU)
deriving DecidableEq

def ContentListUnion.toArray : ContentListUnion → List CU
  | .single u => [u]
  | .many l => l

/-- Model of `x || d` for an optional JSON value (`args || {}` and
`response || {}`). -/
def jsOrJson (o : Option Json) : Json :=
  match o with
  | some j => if jsTruthy j then j else Json.emptyObj
  | none => Json.emptyObj

/-! ## OpenAI message translation (canonical to vendor) -/

structure OpenAIFnOut where
  name : String
  arguments : String
deriving DecidableEq

structure OpenAIToolCallOut where
  id : String
  type : String
  fn : OpenAIFnOut
deriving DecidableEq

structure OpenAIMsg where
  role : String
  content : Option String
  tool_calls : Option (List OpenAIToolCallOut) := none
  tool_call_id : Option String := none
deriving DecidableEq

/-- Stands in for the `call_${Date.now()}_${random}` fallback id
generated when a function-call part carries no id (the sources make no
determinism promise about it). -/
def fallbackCallId : String := "call_fallback"

/-- Stands in for the `unknown-${Date.now()}` fallback tool_call_id
for a function response without an id. -/
def fallbackUnknownId : String := "unknown-fallback"

/-- Model of `OpenAIProvider.extractTextFromContent`: strings pass through;
`Content`/`Part` objects concatenate the truthy texts of their parts
(`parts.map(p => typeof p === 'string' ? p : p.text).filter(Boolean).join('')`). -/
def extractTextFromContentOpenAI (u : CU) : String :=
  match u with
  | .str s => s
  | .cnt c =>
    match c.parts with
    | some ps =>
      strJoin (ps.filterMap (fun p =>
        match p with
        | .str s => if s = "" then none else some s
        | .part po =>
          match po.text with
          | some t => if t = "" then none else some t
          | none => none))
    | none => ""
  | .prt _ => ""

/-- Model of `OpenAIProvider.extractToolCallsFromParts`: one vendor tool call per
part with a truthy `functionCall.name`; args are re-serialised with
`JSON.stringify(args || {})`. -/
def extractToolCallsFromParts (ps : List PartU) : List OpenAIToolCallOut :=
  ps.filterMap (fun p =>
    match p with
    | .str _ => none
    | .part po =>
      match po.functionCall with
      | some fc =>
        if jsTruthyOS fc.name then
          some
            { id := jsOrOS fc.id fallbackCallId
              type := "function"
              fn := { name := fc.name.getD ""
                      arguments := Json.stringify (jsOrJson fc.args) } }
        else none
      | none => none)

/-- The vendor messages contributed by one element of the content array
in `OpenAIProvider.convertGeminiToOpenAIMessages`: tool-call messages
take priority, then function responses (one `tool` message each), then
a plain text message; a `Content` without parts and bare parts fall to
text extraction as user messages.  Note there is no empty-text check:
every element contributes at least one message. -/
def contribOpenAI (u : CU) : List OpenAIMsg :=
  match u with
  | .str s => [{ role := "user", content := some s }]
  | .cnt c =>
    match c.parts with
    | some ps =>
      let role := if c.role = "model" then "assistant" else c.role
      let toolCalls := extractToolCallsFromParts ps
      if ¬ toolCalls.isEmpty then
        [{ role := "assistant", content := none, tool_calls := some toolCalls }]
      else
        let frParts := ps.filterMap (fun p =>
          match p with
          | .part po => po.functionResponse
          | .str _ => none)
        if ¬ frParts.isEmpty then
          frParts.map (fun fr =>
            { role := "tool"
              content := some (Json.stringify (jsOrJson fr.response))
              tool_call_id := some (jsOrOS fr.id fallbackUnknownId) })
        else [{ role := role, content := some (extractTextFromContentOpenAI u) }]
    | none => [{ role := "user", content := some (extractTextFromContentOpenAI u) }]
  | .prt _ => [{ role := "user", content := some (extractTextFromContentOpenAI u) }]

/-- Shallow embedding of `OpenAIProvider.convertGeminiToOpenAIMessages`. -/
def convertGeminiToOpenAIMessages (contents : ContentListUnion) : List OpenAIMsg :=
  (contents.toArray.map contribOpenAI).flatten

/-! ## Anthropic message translation (canonical to vendor) -/

inductive AnthBlock where
  | text (t : String)
  | toolUse (id : String) (name : String) (input : Json)
  | toolResult (tool_use_id : String) (content : String)
deriving DecidableEq

inductive AnthMsgContent where
  | str (s : String)
  | blocks (bs : List AnthBlock)
deriving DecidableEq

structure AnthMsg where
  role : String
  content : AnthMsgContent
deriving DecidableEq

/-- Stands in for the `tool_${Date.now()}_${random}` fallback tool-use
id. -/
def fallbackAnthToolId : String := "tool_fallback"

/-- Model of `AnthropicProvider.extractTextFromContent`: strings pass through; an
object with a string `text` field returns it; otherwise the parts'
texts, filtered to non-empty, joined. -/
def extractTextFromContentAnthropic (u : CU) : String :=
  match u with
  | .str s => s
  | .prt p =>
    match p.text with
    | some t => t
    | none => ""
  | .cnt c =>
    match c.parts with
    | some ps =>
      strJoin ((ps.map (fun p =>
        match p with
        | .str s => s
        | .part po => po.text.getD "")).filter (fun t => t ≠ ""))
    | none => ""

/-- The Anthropic content block produced from one part of a canonical
"model" message: string parts become text blocks unconditionally, object
parts a text block when `part.text.trim()` is truthy, else a `tool_use`
block when a `functionCall` is present. -/
def anthModelBlockOf (p : PartU) : Option AnthBlock :=
  match p with
  | .str s => some (.text s)
  | .part po =>
    let fcBlock : Option AnthBlock :=
      match po.functionCall with
      | some fc =>
        some (.toolUse (jsOrOS fc.id fallbackAnthToolId) (fc.name.getD "")
          (jsOrJson fc.args))
      | none => none
    match po.text with
    | some t => if trimChars t.data ≠ [] then some (.text t) else fcBlock
    | none => fcBlock

/-- The Anthropic content block produced from one part of a canonical
"user" message: as for model messages, but with `tool_result` blocks for
function responses. -/
def anthUserBlockOf (p : PartU) : Option AnthBlock :=
  match p with
  | .str s => some (.text s)
  | .part po =>
    let frBlock : Option AnthBlock :=
      match po.functionResponse with
      | some fr =>
        some (.toolResult (jsOrOS fr.id (jsOrOS fr.name fallbackAnthToolId))
          (Json.stringify (jsOrJson fr.response)))
      | none => none
    match po.text with
    | some t => if trimChars t.data ≠ [] then some (.text t) else frBlock
    | none => frBlock

/-- The vendor message contributed (or not) by one element of the
content array in `AnthropicProvider.convertGeminiToAnthropicMessages`;
`none` models the `return null` paths that drop empty messages. -/
def contribAnthropic (u : CU) : Option AnthMsg :=
  match u with
  | .str s => some { role := "user", content := .str s }
  | .cnt c =>
    if c.role = "model" then
      let blocks := (c.parts.getD []).filterMap anthModelBlockOf
      if ¬ blocks.isEmpty then some { role := "assistant", content := .blocks blocks }
      else none
    else if c.role = "user" then
      let blocks := (c.parts.getD []).filterMap anthUserBlockOf
      let blocks2 :=
        if blocks.isEmpty then
          let t := extractTextFromContentAnthropic (.cnt c)
          if trimChars t.data ≠ [] then [AnthBlock.text t] else []
        else blocks
      if ¬ blocks2.isEmpty then some { role := "user", content := .blocks blocks2 }
      else none
    else
      let t := extractTextFromContentAnthropic (.cnt c)
      if trimChars t.data ≠ [] then some { role := c.role, content := .str t }
      else none
  | .prt p =>
    let t := extractTextFromContentAnthropic (.prt p)
    if trimChars t.data ≠ [] then some { role := "user", content := .str t }
    else none

/-- Shallow embedding of
`AnthropicProvider.convertGeminiToAnthropicMessages` (map to nullable
messages, then filter out the nulls). -/
def convertGeminiToAnthropicMessages (contents : ContentListUnion) : List AnthMsg :=
  contents.toArray.filterMap contribAnthropic

/-! ## Provider router and Ollama provider -/

/-- A thrown JavaScript error, tagged with the constructor class name
(`Error`, `ProviderError`, `ProviderConfigurationError`,
`ProviderAPIError` from baseProvider.ts). -/
structure JsErrorModel where
  cls : String
  message : String
deriving DecidableEq

/-- The class name of the provider API error type of baseProvider.ts
(the error kind the spec's CapabilityError is required to be an
instance of). -/
def providerAPIErrorName : String := "ProviderAPIError"

/-- Flag `AnthropicProvider.supportsEmbeddings` returns false. -/
def anthropicSupportsEmbeddings : Bool := false

/-- The router-visible behaviour of one provider adapter: its configured
name, its `supportsEmbeddings()` flag, and whatever its `embedContent`
would produce if invoked. -/
structure RouterProviderModel where
  providerName : String
  supportsEmbeddingsFlag : Bool
  embedContentResult : Except JsErrorModel (List (List Int))

/-- Shallow embedding of `NonGeminiContentGenerator.embedContent`
(providerManager): when the selected provider reports no embedding
support, throw a plain `Error` naming the provider; otherwise delegate
to the provider. -/
def nonGeminiEmbedContent (p : RouterProviderModel) :
    Except JsErrorModel (List (List Int)) :=
  if ¬ p.supportsEmbeddingsFlag then
    .error
      { cls := "Error"
        message := "Provider " ++ p.providerName ++ " does not support embeddings" }
  else p.embedContentResult

/-- The router model for the Anthropic adapter (whose
`supportsEmbeddings()` is false), with an arbitrary underlying
`embedContent` behaviour. -/
def anthropicRouterModel (r : Except JsErrorModel (List (List Int))) :
    RouterProviderModel :=
  { providerName := "anthropic"
    supportsEmbeddingsFlag := anthropicSupportsEmbeddings
    embedContentResult := r }

/-- The resolved `ProviderConfig` struct (config/models.ts). -/
structure ProviderConfigW where
  provider : String
  model : Option String := none
  apiKey : Option String := none
  baseURL : Option String := none
  apiVersion : Option String := none
deriving DecidableEq

/-- The credential-bearing fields stored by the `OpenAIProvider`
constructor. -/
structure OpenAIProviderState where
  baseURL : String
  apiKey : String
deriving DecidableEq

/-- The `OpenAIProvider` constructor: `baseURL = config.baseURL ||
'https://api.openai.com/v1'; apiKey = config.apiKey || ''`. -/
def openAIProviderCtor (config : ProviderConfigW) : OpenAIProviderState :=
  { baseURL := jsOrOS config.baseURL "https://api.openai.com/v1"
    apiKey := jsOrOS config.apiKey "" }

/-- The `OllamaProvider` constructor: delegates to the `OpenAIProvider`
constructor with provider forced to ollama, a local default base URL,
and `apiKey: ''` regardless of the configured credential. -/
def ollamaProviderCtor (config : ProviderConfigW) : OpenAIProviderState :=
  openAIProviderCtor
    { config with
      provider := "ollama"
      baseURL := some (jsOrOS config.baseURL "http://localhost:11434/v1")
      apiKey := some "" }

/-- An HTTP request as assembled by the providers' request builders. -/
structure HttpRequestModel where
  url : String
  method : String
  headers : List (String × String)
  body : Option String
deriving DecidableEq

/-- Model of `OpenAIProvider.makeOpenAIRequest`: JSON content type plus a Bearer
`Authorization` header when an API key is configured. -/
def makeOpenAIRequest (st : OpenAIProviderState) (endpoint : String)
    (body : Option Json) (method : String) : HttpRequestModel :=
  { url := st.baseURL ++ endpoint
    method := method
    headers :=
      [("Content-Type", "application/json")] ++
        (if st.apiKey ≠ "" then [("Authorization", "Bearer " ++ st.apiKey)] else [])
    body :=
      match body with
      | some b => if jsTruthy b ∧ method ≠ "GET" then some (Json.stringify b) else none
      | none => none }

/-- The `OllamaProvider.makeOpenAIRequest` override: same request shape but
the headers never include `Authorization`. -/
def makeOllamaRequest (st : OpenAIProviderState) (endpoint : String)
    (body : Option Json) (method : String) : HttpRequestModel :=
  { url := st.baseURL ++ endpoint
    method := method
    headers := [("Content-Type", "application/json")]
    body :=
      match body with
      | some b => if jsTruthy b ∧ method ≠ "GET" then some (Json.stringify b) else none
      | none => none }

/-! ## General helper lemmas -/

theorem trimChars_eq_nil_iff (cs : List Char) :
    trimChars cs = [] ↔ ∀ c ∈ cs, isWsChar c := by
  unfold trimChars
  rw [List.reverse_eq_nil_iff, List.dropWhile_eq_nil_iff]
  constructor
  · intro h c hc
    by_cases hmem : c ∈ cs.dropWhile isWsChar
    · exact h c (by simpa using hmem)
    · have hsplit : cs.takeWhile isWsChar ++ cs.dropWhile isWsChar = cs :=
        List.takeWhile_append_dropWhile isWsChar cs
      rw [← hsplit] at hc
      rcases List.mem_append.mp hc with h1 | h1
      · exact List.mem_takeWhile_imp h1
      · exact absurd h1 hmem
  · intro h c hc
    rw [List.mem_reverse] at hc
    exact h c ((List.dropWhile_sublist _).subset hc)

theorem trimChars_ne_nil_of_head (c : Char) (cs : List Char) (hc : ¬ isWsChar c) :
    trimChars (c :: cs) ≠ [] := by
  intro h
  exact hc ((trimChars_eq_nil_iff (c :: cs)).mp h c (by simp))

theorem json_parse_empty : Json.parse "" = none := rfl

/-- An all-whitespace string never parses as JSON. -/
theorem json_parse_of_all_ws (s : String) (h : ∀ c ∈ s.data, isWsChar c) :
    Json.parse s = none := by
  have hskip : skipWs s.data = [] := by
    unfold skipWs
    exact List.dropWhile_eq_nil_iff.mpr h
  unfold Json.parse
  rw [show s.length + 1 = Nat.succ s.length from rfl]
  rw [parseVal]
  rw [hskip]

theorem json_parse_some_trim_ne (s : String) (v : Json)
    (h : Json.parse s = some v) : trimChars s.data ≠ [] ∧ s ≠ "" := by
  constructor
  · intro hnil
    rw [json_parse_of_all_ws s ((trimChars_eq_nil_iff s.data).mp hnil)] at h
    exact Option.noConfusion h
  · intro hempty
    rw [hempty, json_parse_empty] at h
    exact Option.noConfusion h

/-- Parsed tool-call arguments when the accumulated string parses. -/
theorem parseToolCallArguments_of_parse (s : String) (v : Json)
    (h : Json.parse s = some v) : parseToolCallArguments s = v := by
  obtain ⟨htrim, hne⟩ := json_parse_some_trim_ne s v h
  unfold parseToolCallArguments
  rw [if_neg (by simp [hne, htrim]), h]

/-- Parsed tool-call arguments degrade to the empty object on any parse
failure (which subsumes empty and all-whitespace argument strings). -/
theorem parseToolCallArguments_of_parse_fail (s : String)
    (h : Json.parse s = none) : parseToolCallArguments s = Json.emptyObj := by
  unfold parseToolCallArguments
  by_cases hws : s = "" ∨ trimChars s.data = []
  · rw [if_pos hws]
  · rw [if_neg hws, h]

/-! ## C10 -/

/-- C10: the Ollama adapter discards any configured credential — for
every `ProviderConfig` passed to the `OllamaProvider` constructor
(including one with a non-empty `apiKey`), the stored `apiKey` is the
empty string, and every HTTP request built by its `makeOpenAIRequest`
override carries no `Authorization` header. -/
theorem ollama_discards_credentials (config : ProviderConfigW) :
    (ollamaProviderCtor config).apiKey = "" ∧
    ∀ (endpoint : String) (body : Option Json) (method : String),
      "Authorization" ∉
        ((makeOllamaRequest (ollamaProviderCtor config) endpoint body
          method).headers.map Prod.fst) := by
  constructor
  · simp [ollamaProviderCtor, openAIProviderCtor, jsOrOS]
  · intro endpoint body method
    simp [makeOllamaRequest]

/-! ## C9 -/

/-- C9 (amended): an embedding request routed to a provider whose
`supportsEmbeddings()` is false rejects without consulting the
provider's own `embedContent` (the result is this fixed error whatever
`embedContentResult` is), with an error whose message names the provider
and the missing embeddings capability — but the thrown value is a plain
`Error`, not an instance of the `ProviderAPIError` type. -/
theorem unsupported_capability_error_amended (p : RouterProviderModel)
    (h : p.supportsEmbeddingsFlag = false) :
    nonGeminiEmbedContent p =
      .error
        { cls := "Error"
          message := "Provider " ++ p.providerName ++ " does not support embeddings" } ∧
    "Error" ≠ providerAPIErrorName := by
  refine ⟨?_, by decide⟩
  simp [nonGeminiEmbedContent, h]

/-- C9 witness: the Anthropic router model (embeddings unsupported in
the source) rejects with the plain capability error, independently of
the underlying adapter behaviour. -/
theorem unsupported_capability_error_amended_witness :
    (anthropicRouterModel (.ok [[1]])).supportsEmbeddingsFlag = false ∧
    nonGeminiEmbedContent (anthropicRouterModel (.ok [[1]])) =
      .error
        { cls := "Error"
          message := "Provider anthropic does not support embeddings" } :=
  ⟨rfl,
    by
      have h :=
        (unsupported_capability_error_amended (anthropicRouterModel (.ok [[1]])) rfl).1
      simpa using h⟩

/-- C9 counterexample: the error thrown by the router for an
embedding request against the Anthropic adapter is constructed with
`new Error(...)` — its class is `Error`, not the API error type
(`ProviderAPIError`) the claim requires the CapabilityError to be an
instance of. -/
theorem router_embed_error_is_plain_error :
    (match nonGeminiEmbedContent (anthropicRouterModel (.ok [])) with
     | .error e => e.cls
     | .ok _ => "") = "Error" ∧
    "Error" ≠ providerAPIErrorName :=
  ⟨rfl, by decide⟩

/-! ## C4 -/

/-- The `content_block_stop` event. -/
def anthStopEvt : AnthEventView := { type := some "content_block_stop" }

/-- C4: broken tool-call arguments degrade, never abort — an accumulated
argument string that does not parse as JSON (which includes the empty
and all-whitespace cases) yields a function-call part with empty-object
args: OpenAI via `parseToolCallArguments`, Anthropic via the
`content_block_stop` handler, which also leaves the rest of the state
untouched. -/
theorem broken_tool_args_degrade :
    (∀ s : String, Json.parse s = none → parseToolCallArguments s = Json.emptyObj) ∧
    (∀ (st : AnthParseState) (c : AToolUse), st.cur = some c →
      jsTruthyOS c.name = true → Json.parse c.inputJson = none →
      anthropicHandleEvent st anthStopEvt =
        { st with
          cur := none
          out := st.out ++
            [{ candidates :=
                [{ content :=
                     { role := "model"
                       parts := [mkFcPart c.id (c.name.getD "") Json.emptyObj] },
                   finishReason := some .STOP, index := some 0 }] }] }) := by
  constructor
  · exact parseToolCallArguments_of_parse_fail
  · intro st c hcur hname hparse
    have hresp : anthToolStopResp c =
        { candidates :=
            [{ content :=
                 { role := "model"
                   parts := [mkFcPart c.id (c.name.getD "") Json.emptyObj] },
               finishReason := some .STOP, index := some 0 }] } := by
      unfold anthToolStopResp
      by_cases hij : c.inputJson = ""
      · rw [if_neg (by simp [hij])]
      · rw [if_pos hij, hparse]
    simp [anthropicHandleEvent, anthStopEvt, hcur, hname, hresp]

/-- C4 witness: a concrete truncated argument buffer degrades to empty
args in both parsers' argument finalisation. -/
theorem broken_tool_args_degrade_witness :
    Json.parse "\x7b\"locat" = none ∧
    parseToolCallArguments "\x7b\"locat" = Json.emptyObj ∧
    anthropicHandleEvent
        { cur := some { id := some "t1", name := some "get_weather",
                        inputJson := "\x7b\"locat" } }
        anthStopEvt =
      { cur := none
        finalUsage := none
        out := [{ candidates :=
            [{ content :=
                 { role := "model"
                   parts := [mkFcPart (some "t1") "get_weather" Json.emptyObj] },
               finishReason := some .STOP, index := some 0 }] }] } :=
  ⟨rfl,
    broken_tool_args_degrade.1 "\x7b\"locat" rfl,
    by
      have h :=
        broken_tool_args_degrade.2
          { cur := some { id := some "t1", name := some "get_weather",
                          inputJson := "\x7b\"locat" } }
          { id := some "t1", name := some "get_weather", inputJson := "\x7b\"locat" }
          rfl (by decide) rfl
      simpa using h⟩

/-! ## C2 -/

/-- Event `content_block_start` for a tool use with id and name. -/
def anthStartToolEvt (id name : String) : AnthEventView :=
  { type := some "content_block_start", blockType := some "tool_use"
    blockId := some id, blockName := some name }

/-- An `input_json_delta` event carrying one argument fragment. -/
def anthFragEvt (s : String) : AnthEventView :=
  { type := some "content_block_delta", deltaType := some "input_json_delta"
    deltaPartJson := some s }

/-- The single function-call response emitted by the Anthropic parser
for a completed tool use. -/
def anthFcResp (id name : String) (args : Json) : GenResponse :=
  { candidates :=
      [{ content := { role := "model", parts := [mkFcPart (some id) name args] },
         finishReason := some .STOP, index := some 0 }] }

theorem anthropicHandleEvent_start (s : AnthParseState) (id name : String) :
    anthropicHandleEvent s (anthStartToolEvt id name) =
      { s with cur := some { id := some id, name := some name, inputJson := "" } } := by
  simp [anthropicHandleEvent, anthStartToolEvt, jsTruthyOS]

theorem anthropicHandleEvent_frag (s : AnthParseState) (c : AToolUse)
    (hcur : s.cur = some c) (str : String) :
    anthropicHandleEvent s (anthFragEvt str) =
      { s with cur := some { c with inputJson := c.inputJson ++ str } } := by
  simp [anthropicHandleEvent, anthFragEvt, jsTruthyOS, hcur]

theorem anthropicHandleEvent_frag_fold (fs : List String) (s : AnthParseState)
    (c : AToolUse) (hcur : s.cur = some c) :
    List.foldl anthropicHandleEvent s (fs.map anthFragEvt) =
      { s with cur := some { c with inputJson := c.inputJson ++ strJoin fs } } := by
  induction fs generalizing s c with
  | nil =>
    simp only [List.map_nil, List.foldl_nil, strJoin, String.append_empty]
    rw [← hcur]
  | cons f fs ih =>
    simp only [List.map_cons, List.foldl_cons]
    rw [anthropicHandleEvent_frag s c hcur f]
    rw [ih _ { c with inputJson := c.inputJson ++ f } rfl]
    simp [strJoin, String.append_assoc]

theorem anthropicHandleEvent_stop (s : AnthParseState) (c : AToolUse)
    (hcur : s.cur = some c) (hname : jsTruthyOS c.name = true) (v : Json)
    (hparse : Json.parse c.inputJson = some v) :
    anthropicHandleEvent s anthStopEvt =
      { s with
        cur := none
        out := s.out ++
          [{ candidates :=
              [{ content :=
                   { role := "model"
                     parts := [mkFcPart c.id (c.name.getD "") v] },
                 finishReason := some .STOP, index := some 0 }] }] } := by
  have hne : c.inputJson ≠ "" := by
    intro h
    rw [h, json_parse_empty] at hparse
    exact Option.noConfusion hparse
  have hresp : anthToolStopResp c =
      { candidates :=
          [{ content :=
               { role := "model"
                 parts := [mkFcPart c.id (c.name.getD "") v] },
             finishReason := some .STOP, index := some 0 }] } := by
    unfold anthToolStopResp
    rw [if_pos hne, hparse]
  simp [anthropicHandleEvent, anthStopEvt, hcur, hname, hresp]

/-- One OpenAI stream event without a usage payload. -/
def openaiStepEvent (s : OpenAIParseState) (cv : OpenAIChoiceView) : OpenAIParseState :=
  openaiHandleEvent s cv none

/-- Delta starting a tool call: id, name and the first argument
fragment arrive together. -/
def oaiStartToolChunk (tcid nm arg : String) : OpenAIChoiceView :=
  { delta :=
      { tool_calls :=
          some [{ id := some tcid, fn := some { name := some nm, arguments := some arg } }] }
    index := some 0 }

/-- Delta continuing a tool call with one more argument fragment (no id
or name). -/
def oaiContToolChunk (arg : String) : OpenAIChoiceView :=
  { delta := { tool_calls := some [{ fn := some { arguments := some arg } }] }
    index := some 0 }

/-- The final chunk carrying only a finish reason. -/
def oaiFinishChunk (reason : String) : OpenAIChoiceView :=
  { delta := {}, finish_reason := some reason, index := some 0 }

/-- The single function-call response flushed by the OpenAI parser. -/
def oaiFcResp (tcid nm : String) (args : Json) : GenResponse :=
  { candidates :=
      [{ content := { role := "model", parts := [mkFcPart (some tcid) nm args] },
         finishReason := some .STOP, index := some 0 }] }

theorem openaiStepEvent_start (s : OpenAIParseState) (tcid nm arg : String)
    (hcur : s.cur = none) (hnm : nm ≠ "") :
    openaiStepEvent s (oaiStartToolChunk tcid nm arg) =
      { s with cur := some { id := some tcid, name := nm, arguments := arg } } := by
  simp [openaiStepEvent, openaiHandleEvent, oaiStartToolChunk, jsTruthyOS, hcur, hnm]

theorem openaiStepEvent_cont (s : OpenAIParseState) (c : OToolAcc) (a : String)
    (hcur : s.cur = some c) :
    openaiStepEvent s (oaiContToolChunk a) =
      { s with cur := some { c with arguments := c.arguments ++ a } } := by
  by_cases ha : a = ""
  · subst ha
    simp [openaiStepEvent, openaiHandleEvent, oaiContToolChunk, jsTruthyOS, hcur,
      String.append_empty]
  · simp [openaiStepEvent, openaiHandleEvent, oaiContToolChunk, jsTruthyOS, hcur, ha]

theorem openaiStepEvent_cont_fold (fs : List String) (s : OpenAIParseState)
    (c : OToolAcc) (hcur : s.cur = some c) :
    List.foldl openaiStepEvent s (fs.map oaiContToolChunk) =
      { s with cur := some { c with arguments := c.arguments ++ strJoin fs } } := by
  induction fs generalizing s c with
  | nil =>
    simp only [List.map_nil, List.foldl_nil, strJoin, String.append_empty]
    rw [← hcur]
  | cons f fs ih =>
    simp only [List.map_cons, List.foldl_cons]
    rw [openaiStepEvent_cont s c f hcur]
    rw [ih _ { c with arguments := c.arguments ++ f } rfl]
    simp [strJoin, String.append_assoc]

theorem openaiStepEvent_finish (s : OpenAIParseState) (c : OToolAcc)
    (hcur : s.cur = some c) :
    openaiStepEvent s (oaiFinishChunk "tool_calls") =
      { s with
        cur := none
        out := s.out ++
          [{ candidates :=
              [{ content := { role := "model", parts := [oaiFlushPart c] },
                 finishReason := some .STOP, index := some 0 }] }] } := by
  simp [openaiStepEvent, openaiHandleEvent, oaiFinishChunk, jsTruthyOS, hcur,
    convertOpenAIFinishReason]

/-- C2: tool-call argument accumulation — for a stream delivering one
tool call's arguments as `1 + rest.length` fragment events whose
concatenation parses as JSON, each parser emits exactly one response
containing exactly one function-call part whose args are the parsed
value of the concatenation, however the argument string was split
(Anthropic: `content_block_start` / `input_json_delta*` /
`content_block_stop`; OpenAI: a named tool-call delta followed by
argument-only deltas and a `tool_calls` finish chunk). -/
theorem tool_call_arg_accumulation (tid nm f : String) (rest : List String)
    (v : Json) (hnm : nm ≠ "")
    (hparse : Json.parse (strJoin (f :: rest)) = some v) :
    List.foldl anthropicHandleEvent {}
        (anthStartToolEvt tid nm :: (f :: rest).map anthFragEvt ++ [anthStopEvt]) =
      { cur := none, finalUsage := none, out := [anthFcResp tid nm v] } ∧
    List.foldl openaiStepEvent {}
        (oaiStartToolChunk tid nm f :: rest.map oaiContToolChunk ++
          [oaiFinishChunk "tool_calls"]) =
      { done := false, cur := none, out := [oaiFcResp tid nm v] } := by
  constructor
  · simp only [List.foldl_cons, List.foldl_append, List.foldl_nil]
    rw [anthropicHandleEvent_start]
    rw [anthropicHandleEvent_frag_fold (f :: rest)
      { cur := some { id := some tid, name := some nm, inputJson := "" },
        finalUsage := none, out := [] }
      { id := some tid, name := some nm, inputJson := "" } rfl]
    simp only [String.empty_append]
    rw [anthropicHandleEvent_stop _
      { id := some tid, name := some nm, inputJson := strJoin (f :: rest) } rfl
      (by simp [jsTruthyOS, hnm]) v hparse]
    simp [anthFcResp]
  · simp only [List.foldl_cons, List.foldl_append, List.foldl_nil]
    rw [openaiStepEvent_start _ tid nm f rfl hnm]
    rw [openaiStepEvent_cont_fold rest
      { done := false, cur := some { id := some tid, name := nm, arguments := f },
        out := [] }
      { id := some tid, name := nm, arguments := f } rfl]
    rw [openaiStepEvent_finish _
      { id := some tid, name := nm, arguments := f ++ strJoin rest } rfl]
    have hargs : parseToolCallArguments (f ++ strJoin rest) = v :=
      parseToolCallArguments_of_parse _ v hparse
    simp [oaiFcResp, oaiFlushPart, hargs, mkFcPart]

/-- C2 witness: the spec's own example — fragments `'\x7b"locat'` and
`'ion":"NY"\x7d'` concatenate to `\x7b"location":"NY"\x7d` and yield one
function-call part with args `\x7b location: "NY" \x7d` in both
parsers. -/
theorem tool_call_arg_accumulation_witness :
    ("get_weather" : String) ≠ "" ∧
    Json.parse (strJoin ["\x7b\"locat", "ion\":\"NY\"\x7d"]) =
      some (Json.mkObj [("location", Json.str "NY")]) ∧
    List.foldl anthropicHandleEvent {}
        (anthStartToolEvt "t1" "get_weather" ::
          (["\x7b\"locat", "ion\":\"NY\"\x7d"] : List String).map anthFragEvt ++
          [anthStopEvt]) =
      { cur := none, finalUsage := none,
        out := [anthFcResp "t1" "get_weather" (Json.mkObj [("location", Json.str "NY")])] } ∧
    List.foldl openaiStepEvent {}
        (oaiStartToolChunk "t1" "get_weather" "\x7b\"locat" ::
          (["ion\":\"NY\"\x7d"] : List String).map oaiContToolChunk ++
          [oaiFinishChunk "tool_calls"]) =
      { done := false, cur := none,
        out := [oaiFcResp "t1" "get_weather" (Json.mkObj [("location", Json.str "NY")])] } := by
  have h := tool_call_arg_accumulation "t1" "get_weather" "\x7b\"locat"
    ["ion\":\"NY\"\x7d"] (Json.mkObj [("location", Json.str "NY")])
    (by decide) (by rfl)
  exact ⟨by decide, by rfl, h.1, h.2⟩

/-! ## C8 -/

/-- An OpenAI stream chunk carrying only a text delta (no terminal
signal). -/
def oaiTextDeltaChunk (txt : String) (i : Option Int) : OpenAIChoiceView :=
  { delta := { content := some txt }, index := i }

/-- An Anthropic stream event carrying only a text delta. -/
def anthTextDeltaEvt (t : String) : AnthEventView :=
  { type := some "content_block_delta", deltaText := some t }

/-- C8 (amended): the recognised finish codes map as the claim states
(OpenAI stop/tool_calls to STOP, length to MAX_TOKENS, content_filter to
SAFETY; Anthropic end_turn/stop_sequence/tool_use to STOP, max_tokens to
MAX_TOKENS); an unrecognised code maps to `undefined` (unset) for
OpenAI — including in single-shot responses — and to OTHER for
Anthropic; and a streaming chunk that carries no terminal signal is
emitted with finish reason STOP, not left unset, by both stream
parsers. -/
theorem finish_reason_mapping_amended :
    (convertOpenAIFinishReason "stop" = some .STOP ∧
     convertOpenAIFinishReason "tool_calls" = some .STOP ∧
     convertOpenAIFinishReason "length" = some .MAX_TOKENS ∧
     convertOpenAIFinishReason "content_filter" = some .SAFETY) ∧
    (convertAnthropicFinishReason "end_turn" = .STOP ∧
     convertAnthropicFinishReason "stop_sequence" = .STOP ∧
     convertAnthropicFinishReason "tool_use" = .STOP ∧
     convertAnthropicFinishReason "max_tokens" = .MAX_TOKENS) ∧
    (∀ r : String, r ≠ "stop" → r ≠ "length" → r ≠ "content_filter" →
      r ≠ "tool_calls" → convertOpenAIFinishReason r = none) ∧
    (∀ r : String, r ≠ "stop_sequence" → r ≠ "max_tokens" → r ≠ "end_turn" →
      r ≠ "tool_use" → convertAnthropicFinishReason r = .OTHER) ∧
    (∀ (st : OpenAIParseState) (txt : String) (i : Option Int)
        (u : Option UsageView), txt ≠ "" →
      openaiHandleEvent st (oaiTextDeltaChunk txt i) u =
        { st with
          out := st.out ++
            [{ candidates :=
                [{ content := { role := "model", parts := [{ text := some txt }] },
                   finishReason := some .STOP, index := i }]
               usageMetadata := u.map usageMetaOfView }] }) ∧
    (∀ (st : AnthParseState) (t : String), t ≠ "" →
      anthropicHandleEvent st (anthTextDeltaEvt t) =
        { st with out := st.out ++ [anthTextDeltaResp t] }) := by
  refine ⟨⟨rfl, rfl, rfl, rfl⟩, ⟨rfl, rfl, rfl, rfl⟩, ?_, ?_, ?_, ?_⟩
  · intro r h1 h2 h3 h4
    simp [convertOpenAIFinishReason, h1, h2, h3, h4]
  · intro r h1 h2 h3 h4
    simp [convertAnthropicFinishReason, h1, h2, h3, h4]
  · intro st txt i u htxt
    cases hcur : st.cur with
    | none => simp [openaiHandleEvent, oaiTextDeltaChunk, jsTruthyOS, hcur, htxt]
    | some c => simp [openaiHandleEvent, oaiTextDeltaChunk, jsTruthyOS, hcur, htxt]
  · intro st t ht
    cases hcur : st.cur with
    | none => simp [anthropicHandleEvent, anthTextDeltaEvt, jsTruthyOS, hcur, ht]
    | some c => simp [anthropicHandleEvent, anthTextDeltaEvt, jsTruthyOS, hcur, ht]

/-- C8 witness: the universal parts applied at concrete inputs — the
unrecognised code `weird` maps to `undefined` (OpenAI) and OTHER
(Anthropic), and concrete no-terminal-signal delta chunks are emitted
with finish reason STOP by both parsers. -/
theorem finish_reason_mapping_amended_witness :
    convertOpenAIFinishReason "weird" = none ∧
    convertAnthropicFinishReason "weird" = .OTHER ∧
    openaiHandleEvent {} (oaiTextDeltaChunk "Hello" (some 0)) none =
      { done := false, cur := none
        out := [{ candidates :=
            [{ content := { role := "model", parts := [{ text := some "Hello" }] },
               finishReason := some .STOP, index := some 0 }] }] } ∧
    anthropicHandleEvent {} (anthTextDeltaEvt "Hello") =
      { cur := none, finalUsage := none, out := [anthTextDeltaResp "Hello"] } := by
  obtain ⟨-, -, h3, h4, h5, h6⟩ := finish_reason_mapping_amended
  refine ⟨h3 "weird" (by decide) (by decide) (by decide) (by decide),
          h4 "weird" (by decide) (by decide) (by decide) (by decide), ?_, ?_⟩
  · have h := h5 {} "Hello" (some 0) none (by decide)
    simpa using h
  · have h := h6 {} "Hello" (by decide)
    simpa using h

/-- The concrete single-shot OpenAI response with an unrecognised
finish code. -/
def oaiWeirdResp : OpenAIChatResponseW :=
  { choices := [{ message := { content := some "ok" }, finish_reason := "weird" }] }

/-- C8 counterexample: in a single-shot OpenAI response an unrecognised
finish code yields an unset (`undefined`) finish reason, not OTHER as
the claim states (the repository's own test asserts
`convertFinishReason('unknown_reason')` is undefined). -/
theorem openai_unrecognized_finish_reason_not_other :
    (convertOpenAIToGeminiResponse oaiWeirdResp).map
        (fun g => g.candidates.map (fun c => c.finishReason)) =
      some [none] ∧
    (some [(none : Option FinishReason)] ≠ some [some FinishReason.OTHER]) :=
  ⟨rfl, by decide⟩

/-! ## C5 -/

theorem ifEmpty_ne_nil (l : List PartOut) :
    (if l.isEmpty then [({ text := some "" } : PartOut)] else l) ≠ [] := by
  by_cases h : l.isEmpty
  · simp [h]
  · rw [if_neg h]
    intro hnil
    rw [hnil] at h
    exact h rfl

/-- C5 (amended): the at-least-one-part guarantee holds for the OpenAI
converter — every candidate of `convertOpenAIToGeminiResponse` has a
non-empty `parts`, and a response with no textual or tool content yields
exactly one empty-text part — but the Anthropic converter has no such
fallback: its candidate's parts are empty exactly when no content block
qualifies, so a response without textual or tool content produces zero
parts. -/
theorem at_least_one_part_amended :
    (∀ (r : OpenAIChatResponseW) (g : GenResponse),
      convertOpenAIToGeminiResponse r = some g →
      ∀ cand ∈ g.candidates, cand.content.parts ≠ []) ∧
    (∀ (r : OpenAIChatResponseW) (choice : OpenAIRespChoice),
      r.choices.head? = some choice →
      jsTruthyOS choice.message.content = false →
      (choice.message.tool_calls.getD []).all (fun tc => tc.fn.isNone) = true →
      (convertOpenAIToGeminiResponse r).map
          (fun g => g.candidates.map (fun c => c.content.parts)) =
        some [[{ text := some "" }]]) ∧
    (∀ ar : AnthChatResponseW,
      (convertAnthropicToGeminiResponse ar).candidates.map
          (fun c => c.content.parts) = [[]] ↔
        ∀ b ∈ ar.content, anthRespBlockPart b = none) := by
  refine ⟨?_, ?_, ?_⟩
  · intro r g h cand hc
    cases hh : r.choices.head? with
    | none =>
      simp only [convertOpenAIToGeminiResponse, hh] at h
      exact Option.noConfusion h
    | some choice =>
      simp only [convertOpenAIToGeminiResponse, hh, Option.some.injEq] at h
      subst h
      simp only [List.mem_singleton] at hc
      subst hc
      exact ifEmpty_ne_nil _
  · intro r choice hh hcontent halltc
    simp only [convertOpenAIToGeminiResponse, hh, hcontent]
    cases htc : choice.message.tool_calls with
    | none => simp
    | some tcs =>
      rw [htc] at halltc
      have hnil : tcs.filterMap (fun tc =>
          match tc.fn with
          | some f =>
            some (mkFcPart tc.id (f.name.getD "")
              (parseToolCallArguments (f.arguments.getD "")))
          | none => none) = [] := by
        rw [List.filterMap_eq_nil_iff]
        intro tc htcmem
        have := List.all_eq_true.mp halltc tc htcmem
        cases hfn : tc.fn with
        | none => rfl
        | some f => rw [hfn] at this; simp at this
      simp [hnil]
  · intro ar
    simp only [convertAnthropicToGeminiResponse, List.map_cons, List.map_nil]
    rw [show ([(ar.content.filterMap anthRespBlockPart)] = [([] : List PartOut)] ↔
        ar.content.filterMap anthRespBlockPart = []) by simp]
    exact List.filterMap_eq_nil_iff

/-- The single-choice OpenAI response with no textual or tool
content. -/
def oaiContentlessResp : OpenAIChatResponseW :=
  { choices := [{ message := {}, finish_reason := "stop" }] }

/-- The Anthropic response whose only block does not qualify (empty
text is falsy). -/
def anthBlankTextResp : AnthChatResponseW :=
  { content := [{ type := "text", text := some "" }]
    stop_reason := "end_turn"
    usage := { input_tokens := 3, output_tokens := 0 } }

/-- C5 witness: the OpenAI converter turns a contentless response into
exactly one empty-text part, and the Anthropic converter turns a
response whose blocks all fail to qualify into zero parts. -/
theorem at_least_one_part_amended_witness :
    (convertOpenAIToGeminiResponse oaiContentlessResp).map
        (fun g => g.candidates.map (fun c => c.content.parts)) =
      some [[{ text := some "" }]] ∧
    (convertAnthropicToGeminiResponse anthBlankTextResp).candidates.map
        (fun c => c.content.parts) = [[]] := by
  constructor
  · exact at_least_one_part_amended.2.1 oaiContentlessResp
      { message := {}, finish_reason := "stop" } rfl rfl rfl
  · exact (at_least_one_part_amended.2.2 anthBlankTextResp).mpr (by decide)

/-- The Anthropic response with no content blocks at all. -/
def anthEmptyResp : AnthChatResponseW :=
  { content := [], stop_reason := "end_turn"
    usage := { input_tokens := 1, output_tokens := 2 } }

/-- C5 counterexample: `convertAnthropicToGeminiResponse` of a response
with no textual or tool content produces a candidate whose
`content.parts` is empty — zero parts, not the claimed single empty-text
part. -/
theorem anthropic_empty_response_zero_parts :
    (convertAnthropicToGeminiResponse anthEmptyResp).candidates.map
        (fun c => c.content.parts) = [[]] ∧
    ([([] : List PartOut)] ≠ [[({ text := some "" } : PartOut)]]) :=
  ⟨rfl, by decide⟩

/-! ## C6 -/

/-- A canonical part that is empty or whitespace-only text (the tagged
text variant of the canonical content-part model, with an all-whitespace
payload). -/
def IsWsTextPart (u : PartU) : Prop :=
  ∃ (po : PartObj) (t : String),
    u = PartU.part po ∧ po.text = some t ∧ (∀ ch ∈ t.data, isWsChar ch) ∧
    po.functionCall = none ∧ po.functionResponse = none

theorem ws_anthModelBlockOf_none (p : PartU) (h : IsWsTextPart p) :
    anthModelBlockOf p = none := by
  obtain ⟨po, t, rfl, htext, hws, hfc, -⟩ := h
  have htrim : trimChars t.data = [] := (trimChars_eq_nil_iff _).mpr hws
  simp [anthModelBlockOf, htext, htrim, hfc]

theorem ws_anthUserBlockOf_none (p : PartU) (h : IsWsTextPart p) :
    anthUserBlockOf p = none := by
  obtain ⟨po, t, rfl, htext, hws, -, hfr⟩ := h
  have htrim : trimChars t.data = [] := (trimChars_eq_nil_iff _).mpr hws
  simp [anthUserBlockOf, htext, htrim, hfr]

theorem strJoin_data (l : List String) :
    (strJoin l).data = (l.map String.data).flatten := by
  induction l with
  | nil => rfl
  | cons s l ih => simp [strJoin, String.data_append, ih]

theorem strJoin_all_ws (l : List String)
    (h : ∀ s ∈ l, ∀ ch ∈ s.data, isWsChar ch) :
    ∀ ch ∈ (strJoin l).data, isWsChar ch := by
  intro ch hch
  rw [strJoin_data, List.mem_flatten] at hch
  obtain ⟨d, hd, hchd⟩ := hch
  rw [List.mem_map] at hd
  obtain ⟨s, hs, rfl⟩ := hd
  exact h s hs ch hchd

theorem ws_extract_anthropic (c : ContentIn)
    (h : ∀ p ∈ c.parts.getD [], IsWsTextPart p) :
    ∀ ch ∈ (extractTextFromContentAnthropic (CU.cnt c)).data, isWsChar ch := by
  cases hps : c.parts with
  | none =>
    intro ch hch
    rw [extractTextFromContentAnthropic] at hch
    rw [hps] at hch
    simp at hch
  | some ps =>
    rw [hps] at h
    simp only [Option.getD_some] at h
    intro ch hch
    rw [extractTextFromContentAnthropic, hps] at hch
    refine strJoin_all_ws _ ?_ ch hch
    intro s hs
    rw [List.mem_filter] at hs
    obtain ⟨hmem, -⟩ := hs
    rw [List.mem_map] at hmem
    obtain ⟨p, hp, rfl⟩ := hmem
    obtain ⟨po, t, rfl, htext, hws, -, -⟩ := h p hp
    simpa [htext] using hws

theorem contribAnthropic_ws_none (c : ContentIn)
    (h : ∀ p ∈ c.parts.getD [], IsWsTextPart p) :
    contribAnthropic (CU.cnt c) = none := by
  have hext : trimChars (extractTextFromContentAnthropic (CU.cnt c)).data = [] :=
    (trimChars_eq_nil_iff _).mpr (ws_extract_anthropic c h)
  rw [contribAnthropic]
  by_cases hrole : c.role = "model"
  · rw [if_pos hrole]
    have hblocks : (c.parts.getD []).filterMap anthModelBlockOf = [] :=
      List.filterMap_eq_nil_iff.mpr (fun p hp => ws_anthModelBlockOf_none p (h p hp))
    simp [hblocks]
  · rw [if_neg hrole]
    by_cases huser : c.role = "user"
    · rw [if_pos huser]
      have hblocks : (c.parts.getD []).filterMap anthUserBlockOf = [] :=
        List.filterMap_eq_nil_iff.mpr (fun p hp => ws_anthUserBlockOf_none p (h p hp))
      simp [hblocks, hext]
    · rw [if_neg huser]
      simp [hext]

/-- C6 (amended): a canonical message whose parts are all
empty/whitespace text is dropped by the Anthropic translator — removing
it from the content array leaves the vendor request unchanged — but the
OpenAI translator does not drop it: such a `Content` still contributes
exactly one vendor message carrying the (whitespace) extracted text. -/
theorem empty_turn_dropping_amended :
    (∀ (pre post : List CU) (c : ContentIn),
      (∀ p ∈ c.parts.getD [], IsWsTextPart p) →
      convertGeminiToAnthropicMessages (.many (pre ++ CU.cnt c :: post)) =
        convertGeminiToAnthropicMessages (.many (pre ++ post))) ∧
    (∀ (c : ContentIn) (ps : List PartU), c.parts = some ps →
      (∀ p ∈ ps, IsWsTextPart p) →
      contribOpenAI (CU.cnt c) =
        [{ role := if c.role = "model" then "assistant" else c.role,
           content := some (extractTextFromContentOpenAI (CU.cnt c)) }]) := by
  constructor
  · intro pre post c h
    have hnone := contribAnthropic_ws_none c h
    simp [convertGeminiToAnthropicMessages, ContentListUnion.toArray,
      List.filterMap_append, List.filterMap_cons, hnone]
  · intro c ps hps h
    have htc : extractToolCallsFromParts ps = [] := by
      rw [extractToolCallsFromParts, List.filterMap_eq_nil_iff]
      intro p hp
      obtain ⟨po, t, rfl, -, -, hfc, -⟩ := h p hp
      simp [hfc]
    have hfr : ps.filterMap (fun p =>
        match p with
        | .part po => po.functionResponse
        | .str _ => none) = [] := by
      rw [List.filterMap_eq_nil_iff]
      intro p hp
      obtain ⟨po, t, rfl, -, -, -, hfr⟩ := h p hp
      simp [hfr]
    rw [contribOpenAI, hps]
    simp [htc, hfr]

/-- The all-whitespace user message used in the C6 witness. -/
def wsDemoContent : ContentIn :=
  { role := "user", parts := some [PartU.part { text := some "  " }] }

/-- C6 witness: dropping the whitespace-only message from a concrete
conversation leaves the Anthropic request unchanged, while the OpenAI
translator still emits a message for it. -/
theorem empty_turn_dropping_amended_witness :
    convertGeminiToAnthropicMessages
        (.many [CU.str "hello", CU.cnt wsDemoContent]) =
      convertGeminiToAnthropicMessages (.many [CU.str "hello"]) ∧
    contribOpenAI (CU.cnt wsDemoContent) =
      [{ role := "user", content := some "  " }] := by
  have hws : ∀ p ∈ wsDemoContent.parts.getD [], IsWsTextPart p := by
    intro p hp
    simp only [wsDemoContent, Option.getD_some, List.mem_singleton] at hp
    subst hp
    exact ⟨{ text := some "  " }, "  ", rfl, rfl, by decide, rfl, rfl⟩
  constructor
  · exact empty_turn_dropping_amended.1 [CU.str "hello"] [] wsDemoContent hws
  · have h := empty_turn_dropping_amended.2 wsDemoContent
      [PartU.part { text := some "  " }] rfl (by
        intro p hp
        simp only [List.mem_singleton] at hp
        subst hp
        exact ⟨{ text := some "  " }, "  ", rfl, rfl, by decide, rfl, rfl⟩)
    simpa using h

/-- C6 counterexample: `convertGeminiToOpenAIMessages` keeps a message
whose only part is whitespace text — the vendor message array contains
it rather than omitting it as the claim states. -/
theorem openai_whitespace_message_not_dropped :
    convertGeminiToOpenAIMessages
        (.many [CU.cnt { role := "user",
                         parts := some [PartU.part { text := some " " }] }]) =
      [{ role := "user", content := some " " }] ∧
    ([{ role := "user", content := some " " }] : List OpenAIMsg) ≠ [] :=
  ⟨rfl, by decide⟩

/-! ## C7 -/

theorem anthModelBlockOf_isSome_of_fc (po : PartObj)
    (hfc : po.functionCall.isSome) :
    (anthModelBlockOf (PartU.part po)).isSome := by
  obtain ⟨fc, hfc'⟩ := Option.isSome_iff_exists.mp hfc
  cases htext : po.text with
  | none => simp [anthModelBlockOf, htext, hfc']
  | some t =>
    by_cases htrim : trimChars t.data = []
    · simp [anthModelBlockOf, htext, htrim, hfc']
    · simp [anthModelBlockOf, htext, htrim]

/-- C7 (amended): a canonical "model" message containing a
function-call part becomes, for Anthropic, a single assistant message
whose mixed content carries every non-whitespace text part (as a text
block) alongside the tool_use blocks; for OpenAI it becomes a single
assistant message with the tool-call list and `content: null` — the
accompanying plain text is silently discarded. -/
theorem function_call_text_preservation_amended :
    (∀ (c : ContentIn), c.role = "model" →
      (∃ p ∈ c.parts.getD [], ∃ po, p = PartU.part po ∧ po.functionCall.isSome) →
      contribAnthropic (CU.cnt c) =
        some { role := "assistant",
               content := .blocks ((c.parts.getD []).filterMap anthModelBlockOf) }) ∧
    (∀ (c : ContentIn) (q : PartU) (qo : PartObj) (t : String),
      q ∈ c.parts.getD [] → q = PartU.part qo → qo.text = some t →
      trimChars t.data ≠ [] →
      AnthBlock.text t ∈ (c.parts.getD []).filterMap anthModelBlockOf) ∧
    (∀ (c : ContentIn) (ps : List PartU), c.role = "model" → c.parts = some ps →
      extractToolCallsFromParts ps ≠ [] →
      contribOpenAI (CU.cnt c) =
        [{ role := "assistant", content := none,
           tool_calls := some (extractToolCallsFromParts ps) }]) := by
  refine ⟨?_, ?_, ?_⟩
  · intro c hrole hex
    obtain ⟨p, hp, po, rfl, hfc⟩ := hex
    obtain ⟨b, hb⟩ := Option.isSome_iff_exists.mp (anthModelBlockOf_isSome_of_fc po hfc)
    have hmem : b ∈ (c.parts.getD []).filterMap anthModelBlockOf :=
      List.mem_filterMap.mpr ⟨PartU.part po, hp, hb⟩
    have hne : (c.parts.getD []).filterMap anthModelBlockOf ≠ [] :=
      List.ne_nil_of_mem hmem
    have hemp : ((c.parts.getD []).filterMap anthModelBlockOf).isEmpty = false := by
      cases hl : (c.parts.getD []).filterMap anthModelBlockOf with
      | nil => exact absurd hl hne
      | cons x xs => rfl
    simp [contribAnthropic, hrole, hemp]
  · intro c q qo t hq hqo htext htrim
    subst hqo
    refine List.mem_filterMap.mpr ⟨PartU.part qo, hq, ?_⟩
    simp [anthModelBlockOf, htext, htrim]
  · intro c ps hrole hps htc
    have hemp : (extractToolCallsFromParts ps).isEmpty = false := by
      cases hl : extractToolCallsFromParts ps with
      | nil => exact absurd hl htc
      | cons x xs => rfl
    rw [contribOpenAI, hps]
    simp [hemp]

/-- The function call carried by the mixed demo message. -/
def fcDemoCall : FunctionCallIn :=
  { id := some "call_1", name := some "get_weather"
    args := some (Json.mkObj [("location", Json.str "NY")]) }

/-- The function-call part of the mixed demo message. -/
def fcDemoPart : PartObj := { functionCall := some fcDemoCall }

/-- The model message combining explanatory text with a function
call. -/
def fcTextContent : ContentIn :=
  { role := "model"
    parts := some [PartU.part { text := some "Let me check." }, PartU.part fcDemoPart] }

/-- C7 witness: for the concrete mixed message, the Anthropic translator
produces one assistant message whose blocks are the text followed by the
tool use, and the OpenAI translator produces one assistant message with
`content: null` and the tool-call list. -/
theorem function_call_text_preservation_amended_witness :
    contribAnthropic (CU.cnt fcTextContent) =
      some { role := "assistant",
             content := .blocks
               ((fcTextContent.parts.getD []).filterMap anthModelBlockOf) } ∧
    AnthBlock.text "Let me check." ∈
      (fcTextContent.parts.getD []).filterMap anthModelBlockOf ∧
    contribOpenAI (CU.cnt fcTextContent) =
      [{ role := "assistant", content := none,
         tool_calls := some (extractToolCallsFromParts (fcTextContent.parts.getD [])) }] := by
  refine ⟨?_, ?_, ?_⟩
  · exact function_call_text_preservation_amended.1 fcTextContent rfl
      ⟨PartU.part fcDemoPart, by simp [fcTextContent], fcDemoPart, rfl, rfl⟩
  · exact function_call_text_preservation_amended.2.1 fcTextContent
      (PartU.part { text := some "Let me check." })
      { text := some "Let me check." } "Let me check."
      (by simp [fcTextContent]) rfl rfl (by decide)
  · have h := function_call_text_preservation_amended.2.2 fcTextContent
      (fcTextContent.parts.getD []) rfl rfl (by decide)
    simpa using h

/-- C7 counterexample: the OpenAI translation of a model message that
contains both text and a function call is a single message with
`content: null` — the text `Let me check.` appears nowhere in the
vendor message array, contradicting the claim that it is never silently
lost. -/
theorem openai_tool_call_text_lost :
    (convertGeminiToOpenAIMessages (.many [CU.cnt fcTextContent])).map
        (fun m => m.content) = [none] := by
  decide

/-! ## C3 -/

theorem openaiHandleLine_bad (bad : List Char)
    (hpre : dataMarker.isPrefixOf (trimChars bad) = true)
    (hdone : (trimChars bad).drop 6 ≠ doneMarker)
    (hparse : Json.parse (String.mk ((trimChars bad).drop 6)) = none)
    (ps : OpenAIParseState) :
    openaiHandleLine ps bad = ps := by
  by_cases hd : ps.done
  · simp [openaiHandleLine, hd]
  · simp [openaiHandleLine, hd, hpre, hdone, hparse]

theorem anthropicHandleLine_bad (bad : List Char)
    (hpre : dataMarker.isPrefixOf bad = true)
    (hparse : Json.parse (String.mk (trimChars (bad.drop 6))) = none)
    (s : AnthParseState) :
    anthropicHandleLine s bad = s := by
  have hbad : ∃ t, bad = dataMarker ++ t := by
    obtain ⟨t, ht⟩ := List.isPrefixOf_iff_prefix.mp hpre
    exact ⟨t, ht.symm⟩
  obtain ⟨t, rfl⟩ := hbad
  have htrim : trimChars (dataMarker ++ t) ≠ [] :=
    trimChars_ne_nil_of_head 'd' _ (by decide)
  rw [anthropicHandleLine]
  rw [if_neg (by simp [htrim, hpre])]
  by_cases hj : trimChars ((dataMarker ++ t).drop 6) = []
  · simp [hj]
  · simp [hj, hparse]

/-- C3 (amended): a `"data: "` line whose payload is invalid JSON — and,
for the OpenAI parser, is not the terminal sentinel `[DONE]` — is
skipped without effect: inserting it anywhere between the lines of a
stream leaves the whole line-processing fold, and hence the emitted
response sequence, unchanged, for both parsers (the parsers' models are
total, so no error is raised). -/
theorem malformed_line_skipped_amended :
    (∀ (bad : List Char),
      dataMarker.isPrefixOf (trimChars bad) = true →
      (trimChars bad).drop 6 ≠ doneMarker →
      Json.parse (String.mk ((trimChars bad).drop 6)) = none →
      ∀ (ps : OpenAIParseState) (ls1 ls2 : List (List Char)),
        List.foldl openaiHandleLine ps (ls1 ++ bad :: ls2) =
          List.foldl openaiHandleLine ps (ls1 ++ ls2)) ∧
    (∀ (bad : List Char),
      dataMarker.isPrefixOf bad = true →
      Json.parse (String.mk (trimChars (bad.drop 6))) = none →
      ∀ (s : AnthParseState) (ls1 ls2 : List (List Char)),
        List.foldl anthropicHandleLine s (ls1 ++ bad :: ls2) =
          List.foldl anthropicHandleLine s (ls1 ++ ls2)) := by
  constructor
  · intro bad hpre hdone hparse ps ls1 ls2
    rw [List.foldl_append, List.foldl_append, List.foldl_cons]
    rw [openaiHandleLine_bad bad hpre hdone hparse]
  · intro bad hpre hparse s ls1 ls2
    rw [List.foldl_append, List.foldl_append, List.foldl_cons]
    rw [anthropicHandleLine_bad bad hpre hparse]

/-- A valid OpenAI text-delta line emitting `A`. -/
def oaiLineA : String :=
  "data: \x7b\"choices\":[\x7b\"index\":0,\"delta\":\x7b\"content\":\"A\"\x7d\x7d]\x7d"

/-- A valid OpenAI text-delta line emitting `B`. -/
def oaiLineB : String :=
  "data: \x7b\"choices\":[\x7b\"index\":0,\"delta\":\x7b\"content\":\"B\"\x7d\x7d]\x7d"

/-- A valid Anthropic text-delta line emitting `A`. -/
def anthLineA : String :=
  "data: \x7b\"type\":\"content_block_delta\",\"delta\":\x7b\"text\":\"A\"\x7d\x7d"

/-- A valid Anthropic text-delta line emitting `B`. -/
def anthLineB : String :=
  "data: \x7b\"type\":\"content_block_delta\",\"delta\":\x7b\"text\":\"B\"\x7d\x7d"

/-- C3 witness: a concrete invalid-JSON `"data: "` line between two
valid events leaves both parsers' outputs exactly as if it were not
there. -/
theorem malformed_line_skipped_amended_witness :
    Json.parse (String.mk ((trimChars "data: \x7boops".data).drop 6)) = none ∧
    List.foldl openaiHandleLine {}
        [oaiLineA.data, "data: \x7boops".data, oaiLineB.data] =
      List.foldl openaiHandleLine {} [oaiLineA.data, oaiLineB.data] ∧
    List.foldl anthropicHandleLine {}
        [anthLineA.data, "data: \x7boops".data, anthLineB.data] =
      List.foldl anthropicHandleLine {} [anthLineA.data, anthLineB.data] := by
  refine ⟨by rfl, ?_, ?_⟩
  · exact malformed_line_skipped_amended.1 "data: \x7boops".data
      (by decide) (by decide) (by rfl) {} [oaiLineA.data] [oaiLineB.data]
  · exact malformed_line_skipped_amended.2 "data: \x7boops".data
      (by decide) (by rfl) {} [anthLineA.data] [anthLineB.data]

/-- The OpenAI stream with the invalid-JSON sentinel line between two
valid events, and the same stream without it. -/
def doneBetweenStream : List Nat :=
  strBytes (oaiLineA ++ "\n" ++ "data: [DONE]" ++ "\n" ++ oaiLineB ++ "\n")

def noDoneBetweenStream : List Nat :=
  strBytes (oaiLineA ++ "\n" ++ oaiLineB ++ "\n")

/-- C3 counterexample: `data: [DONE]` is a `"data: "` line whose payload
`[DONE]` is invalid JSON, yet the OpenAI parser does not skip it — it
terminates the stream, so the second surrounding valid event is never
emitted, contradicting the claim for every such stream. -/
theorem openai_done_sentinel_not_skipped :
    Json.parse "[DONE]" = none ∧
    emittedTexts (parseOpenAIStream [doneBetweenStream]) = ["A"] ∧
    emittedTexts (parseOpenAIStream [noDoneBetweenStream]) = ["A", "B"] ∧
    (["A"] : List String) ≠ ["A", "B"] := by
  refine ⟨by rfl, by rfl, by rfl, by decide⟩

/-! ## C1 -/

/-- Observational reachability between OpenAI stream states: equal parse
states (hence equal emitted output), and — unless the generator has
already returned — equal full states.  After the `[DONE]` early return
the decoder and buffer of the one-shot and chunked runs may differ, but
no further chunk is ever processed. -/
def OReach (s t : OpenAIStreamState) : Prop :=
  s.ps = t.ps ∧ (s.ps.done = false → s = t)

theorem oreach_refl (s : OpenAIStreamState) : OReach s s := ⟨rfl, fun _ => rfl⟩

theorem oreach_trans {a b c : OpenAIStreamState} (h1 : OReach a b)
    (h2 : OReach b c) : OReach a c := by
  obtain ⟨hps1, himp1⟩ := h1
  obtain ⟨hps2, himp2⟩ := h2
  refine ⟨hps1.trans hps2, fun hf => ?_⟩
  exact (himp1 hf).trans (himp2 (by rw [← hps1]; exact hf))

theorem openaiHandleLine_done (ps : OpenAIParseState) (l : List Char)
    (h : ps.done = true) : openaiHandleLine ps l = ps := by
  simp [openaiHandleLine, h]

theorem foldl_openaiHandleLine_done (ls : List (List Char))
    (ps : OpenAIParseState) (h : ps.done = true) :
    List.foldl openaiHandleLine ps ls = ps := by
  induction ls with
  | nil => rfl
  | cons l ls ih => rw [List.foldl_cons, openaiHandleLine_done ps l h]; exact ih

theorem openaiChunkStep_done (s : OpenAIStreamState) (c : List Nat)
    (h : s.ps.done = true) : openaiChunkStep s c = s := by
  simp [openaiChunkStep, h]

theorem openaiChunkStep_formula (s : OpenAIStreamState) (b : List Nat)
    (h : s.ps.done = false) :
    openaiChunkStep s b =
      { dec := (utf8DecodeStreamCore s.dec b).1
        buffer := (splitLines '\n' (s.buffer ++ (utf8DecodeStreamCore s.dec b).2)).2
        ps := (splitLines '\n'
          (s.buffer ++ (utf8DecodeStreamCore s.dec b).2)).1.foldl openaiHandleLine s.ps } := by
  simp [openaiChunkStep, h]

theorem oreach_chunkStep {s t : OpenAIStreamState} (c : List Nat)
    (h : OReach s t) : OReach (openaiChunkStep s c) (openaiChunkStep t c) := by
  obtain ⟨hps, himp⟩ := h
  by_cases hd : s.ps.done = true
  · have ht : t.ps.done = true := by rw [← hps]; exact hd
    rw [openaiChunkStep_done s c hd, openaiChunkStep_done t c ht]
    exact ⟨hps, himp⟩
  · have hf : s.ps.done = false := by
      revert hd
      cases s.ps.done <;> simp
    rw [himp hf]
    exact oreach_refl _

/-- The buffer invariant: the retained trailing segment never contains a
newline. -/
def NoNL (s : OpenAIStreamState) : Prop := '\n' ∉ s.buffer

theorem openaiChunkStep_noNL (s : OpenAIStreamState) (c : List Nat)
    (h : NoNL s) : NoNL (openaiChunkStep s c) := by
  by_cases hd : s.ps.done = true
  · rw [openaiChunkStep_done s c hd]; exact h
  · have hf : s.ps.done = false := by
      revert hd
      cases s.ps.done <;> simp
    rw [openaiChunkStep_formula s c hf]
    exact splitLines_trailing_not_mem '\n' _

theorem openaiChunkStep_nil (s : OpenAIStreamState) (h : NoNL s) :
    openaiChunkStep s [] = s := by
  by_cases hd : s.ps.done = true
  · exact openaiChunkStep_done s [] hd
  · have hf : s.ps.done = false := by
      revert hd
      cases s.ps.done <;> simp
    rw [openaiChunkStep_formula s [] hf]
    have hdec : utf8DecodeStreamCore s.dec [] = (s.dec, []) := rfl
    have hsl : splitLines '\n' s.buffer = ([], s.buffer) := by
      have := splitLines_foldl_of_not_mem '\n' s.buffer h [] []
      simpa [splitLines] using this
    rw [hdec]
    simp [hsl]

theorem openaiChunkStep_append (s : OpenAIStreamState) (h : NoNL s)
    (b1 b2 : List Nat) :
    OReach (openaiChunkStep s (b1 ++ b2))
      (openaiChunkStep (openaiChunkStep s b1) b2) := by
  by_cases hd : s.ps.done = true
  · rw [openaiChunkStep_done s _ hd, openaiChunkStep_done s _ hd,
      openaiChunkStep_done s _ hd]
    exact oreach_refl s
  · have hf : s.ps.done = false := by
      revert hd
      cases s.ps.done <;> simp
    rw [openaiChunkStep_formula s (b1 ++ b2) hf, openaiChunkStep_formula s b1 hf]
    rw [utf8DecodeStreamCore_append s.dec b1 b2]
    rw [splitLines_chunk_append '\n' s.buffer
      (utf8DecodeStreamCore s.dec b1).2
      (utf8DecodeStreamCore (utf8DecodeStreamCore s.dec b1).1 b2).2 h]
    rw [List.foldl_append]
    by_cases h1 : ((splitLines '\n'
        (s.buffer ++ (utf8DecodeStreamCore s.dec b1).2)).1.foldl
          openaiHandleLine s.ps).done = true
    · rw [openaiChunkStep_done _ b2 h1]
      refine ⟨?_, fun hff => ?_⟩
      · exact foldl_openaiHandleLine_done _ _ h1
      · rw [foldl_openaiHandleLine_done _ _ h1] at hff
        rw [hff] at h1
        exact absurd h1 (by simp)
    · have h1f : ((splitLines '\n'
          (s.buffer ++ (utf8DecodeStreamCore s.dec b1).2)).1.foldl
            openaiHandleLine s.ps).done = false := by
        revert h1
        cases ((splitLines '\n'
          (s.buffer ++ (utf8DecodeStreamCore s.dec b1).2)).1.foldl
            openaiHandleLine s.ps).done <;> simp
      rw [openaiChunkStep_formula _ b2 h1f]
      exact oreach_refl _

theorem openai_join_chunks (cs : List (List Nat)) :
    ∀ (s : OpenAIStreamState), NoNL s →
      OReach (openaiChunkStep s cs.flatten) (List.foldl openaiChunkStep s cs) := by
  induction cs with
  | nil =>
    intro s h
    rw [List.flatten_nil, List.foldl_nil, openaiChunkStep_nil s h]
    exact oreach_refl s
  | cons c cs ih =>
    intro s h
    rw [List.flatten_cons, List.foldl_cons]
    exact oreach_trans (openaiChunkStep_append s h c cs.flatten)
      (ih (openaiChunkStep s c) (openaiChunkStep_noNL s c h))

theorem anthropicChunkStep_formula (s : AnthStreamState) (b : List Nat) :
    anthropicChunkStep s b =
      { buffer := (splitLines '\n' (s.buffer ++ utf8DecodeFull b)).2
        ps := (splitLines '\n'
          (s.buffer ++ utf8DecodeFull b)).1.foldl anthropicHandleLine s.ps } := rfl

theorem anthropicChunkStep_nil (s : AnthStreamState) (h : '\n' ∉ s.buffer) :
    anthropicChunkStep s [] = s := by
  rw [anthropicChunkStep_formula]
  have hdec : utf8DecodeFull [] = [] := rfl
  have hsl : splitLines '\n' s.buffer = ([], s.buffer) := by
    have := splitLines_foldl_of_not_mem '\n' s.buffer h [] []
    simpa [splitLines] using this
  rw [hdec]
  simp [hsl]

theorem anthropicChunkStep_append (s : AnthStreamState) (h : '\n' ∉ s.buffer)
    (b1 b2 : List Nat) (ha1 : ∀ b ∈ b1, b < 128) (ha2 : ∀ b ∈ b2, b < 128) :
    anthropicChunkStep s (b1 ++ b2) =
      anthropicChunkStep (anthropicChunkStep s b1) b2 := by
  rw [anthropicChunkStep_formula s (b1 ++ b2), anthropicChunkStep_formula s b1,
    anthropicChunkStep_formula]
  rw [utf8DecodeFull_ascii_append b1 b2 ha1 ha2]
  rw [splitLines_chunk_append '\n' s.buffer (utf8DecodeFull b1) (utf8DecodeFull b2) h]
  rw [List.foldl_append]

theorem anthropicChunkStep_noNL (s : AnthStreamState) (c : List Nat) :
    '\n' ∉ (anthropicChunkStep s c).buffer := by
  rw [anthropicChunkStep_formula]
  exact splitLines_trailing_not_mem '\n' _

theorem anthropic_join_chunks (cs : List (List Nat)) :
    ∀ (s : AnthStreamState), '\n' ∉ s.buffer →
      (∀ c ∈ cs, ∀ b ∈ c, b < 128) →
      anthropicChunkStep s cs.flatten = List.foldl anthropicChunkStep s cs := by
  induction cs with
  | nil =>
    intro s h _
    rw [List.flatten_nil, List.foldl_nil, anthropicChunkStep_nil s h]
  | cons c cs ih =>
    intro s h ha
    have hac : ∀ b ∈ c, b < 128 := ha c (by simp)
    have harest : ∀ d ∈ cs, ∀ b ∈ d, b < 128 := fun d hd => ha d (by simp [hd])
    have haflat : ∀ b ∈ cs.flatten, b < 128 := by
      intro b hb
      obtain ⟨d, hd, hbd⟩ := List.mem_flatten.mp hb
      exact harest d hd b hbd
    rw [List.flatten_cons, List.foldl_cons]
    rw [anthropicChunkStep_append s h c cs.flatten hac haflat]
    exact ih (anthropicChunkStep s c) (anthropicChunkStep_noNL s c) harest

theorem flatten_map_singleton (bs : List Nat) :
    (bs.map (fun b => [b])).flatten = bs := by
  induction bs with
  | nil => rfl
  | cons b bs ih => simp [ih]

/-- C1 (amended): chunk-split invariance — delivering a byte stream in
1-byte chunks emits exactly the same sequence of canonical partial
responses as delivering it in one chunk: unconditionally for
`parseOpenAIStream` (whose single `TextDecoder` decodes with
`stream: true`), and for `parseAnthropicStream` on streams of
single-byte (ASCII) code points; the Anthropic parser decodes each
chunk with a fresh `TextDecoder`, which mangles a multi-byte UTF-8
character split across chunks (see the counterexample). -/
theorem stream_chunk_split_invariance :
    (∀ bs : List Nat,
      parseOpenAIStream (bs.map (fun b => [b])) = parseOpenAIStream [bs]) ∧
    (∀ bs : List Nat, (∀ b ∈ bs, b < 128) →
      parseAnthropicStream (bs.map (fun b => [b])) = parseAnthropicStream [bs]) := by
  constructor
  · intro bs
    have h := openai_join_chunks (bs.map (fun b => [b])) {} (by simp [NoNL])
    rw [flatten_map_singleton] at h
    unfold parseOpenAIStream
    rw [List.foldl_cons, List.foldl_nil]
    exact congrArg (fun ps => ps.out) h.1.symm
  · intro bs hascii
    have h := anthropic_join_chunks (bs.map (fun b => [b])) {} (by simp)
      (by
        intro c hc b hb
        obtain ⟨a, ha, hac⟩ := List.mem_map.mp hc
        rw [← hac] at hb
        simp only [List.mem_singleton] at hb
        rw [hb]
        exact hascii a ha)
    rw [flatten_map_singleton] at h
    unfold parseAnthropicStream
    rw [List.foldl_cons, List.foldl_nil]
    exact congrArg (fun st => st.ps.out) h.symm

/-- The concrete all-ASCII Anthropic stream used in the C1 witness. -/
def asciiDemoStream : List Nat :=
  strBytes "data: \x7b\"type\":\"content_block_delta\",\"delta\":\x7b\"text\":\"Hi\"\x7d\x7d\n"

/-- C1 witness: the invariance applied to a concrete ASCII stream. -/
theorem stream_chunk_split_invariance_witness :
    (∀ b ∈ asciiDemoStream, b < 128) ∧
    parseAnthropicStream (asciiDemoStream.map (fun b => [b])) =
      parseAnthropicStream [asciiDemoStream] ∧
    parseOpenAIStream (asciiDemoStream.map (fun b => [b])) =
      parseOpenAIStream [asciiDemoStream] :=
  ⟨by decide,
    stream_chunk_split_invariance.2 asciiDemoStream (by decide),
    stream_chunk_split_invariance.1 asciiDemoStream⟩

/-- The Anthropic text-delta line whose text is a two-byte UTF-8
character (`é` = 0xC3 0xA9). -/
def anthMultibyteStream : List Nat :=
  strBytes "data: \x7b\"type\":\"content_block_delta\",\"delta\":\x7b\"text\":\"" ++
    [0xC3, 0xA9] ++ strBytes "\"\x7d\x7d\n"

/-- C1 counterexample: delivering the same Anthropic byte stream in
1-byte chunks changes the emitted text — the per-chunk fresh
`TextDecoder` turns the split two-byte character `é` into two U+FFFD
replacement characters — so the claimed invariance fails for
`parseAnthropicStream`. -/
theorem anthropic_one_byte_chunking_differs :
    emittedTexts (parseAnthropicStream [anthMultibyteStream]) = ["é"] ∧
    emittedTexts (parseAnthropicStream (anthMultibyteStream.map (fun b => [b]))) =
      ["��"] ∧
    ("é" : String) ≠ "��" := by
  refine ⟨by rfl, by rfl, by decide⟩
